import Mathlib

/-!
# Verification of the aphelion-util instruction-encoding core

A shallow embedding, in Lean 4, of the Rust sources of `aphelion-util`
(src/nibble.rs, src/registers.rs, src/interrupt.rs, src/io.rs,
src/helper.rs, src/instruction.rs), together with theorems settling the
specification claims about it.

Machine integers are embedded as `Nat` (with explicit `% 2 ^ w` where the
source wraps) and `Int` for the signed reinterpretations.  Byte access
(`to_le_bytes` / `from_le_bytes`) is embedded as division/remainder by
powers of two; where the source applies a mask `x & 0x0F` to a byte the
embedding writes the equivalent `x % 16`, and keeps the original
expression in a comment.  Fallible code (`Option` in Rust) becomes
`Option` in Lean.  `unreachable!()` arms are embedded as a separate
`none` layer so that their deadness is a provable statement.
-/

/-- Reinterpret a 64-bit unsigned pattern (a `Nat` below `2 ^ 64`) as a
two's-complement signed value, Rust's `as i64`. -/
def toI64 (v : Nat) : Int :=
  if v < 2 ^ 63 then (v : Int) else (v : Int) - 2 ^ 64

/-- Re-encode a signed value as a 64-bit unsigned pattern, Rust's `as u64`. -/
def toU64 (i : Int) : Nat :=
  (i % 2 ^ 64).toNat

/-- Wrap an unbounded signed value into the `i64` range, the value part of
Rust's `overflowing_add` / `overflowing_sub` on `i64`. -/
def wrapI64 (i : Int) : Int :=
  (i + 2 ^ 63) % 2 ^ 64 - 2 ^ 63

/-- Bit-or of numbers with disjoint bit support is addition.  Used to
normalise the one place the source builds a word with `|` on possibly
overlapping operands (`B::to_u32`). -/
theorem lor_eq_add_of_and_eq_zero (a b : Nat) (h : a &&& b = 0) : a ||| b = a + b := by
  induction a using Nat.strong_induction_on generalizing b with
  | _ a ih =>
    rcases Nat.eq_zero_or_pos a with ha | ha
    · simp [ha]
    · have hd : a / 2 &&& b / 2 = 0 := by
        rw [← Nat.and_div_two, h]
      have ihd : a / 2 ||| b / 2 = a / 2 + b / 2 := ih (a / 2) (by omega) (b / 2) hd
      have hnb : ¬ (a % 2 = 1 ∧ b % 2 = 1) := by
        intro hb
        have h2 := Nat.and_mod_two_eq_one.mpr hb
        omega
      have hor : (a ||| b) % 2 = 1 ↔ a % 2 = 1 ∨ b % 2 = 1 := Nat.or_mod_two_eq_one
      have hm : (a ||| b) % 2 = a % 2 + b % 2 := by
        rcases Nat.mod_two_eq_zero_or_one a with h1 | h1 <;>
          rcases Nat.mod_two_eq_zero_or_one b with h2 | h2
        · rcases Nat.mod_two_eq_zero_or_one (a ||| b) with h3 | h3
          · omega
          · rcases hor.mp h3 with h4 | h4 <;> omega
        · have h5 := hor.mpr (Or.inr h2); omega
        · have h5 := hor.mpr (Or.inl h1); omega
        · exact absurd ⟨h1, h2⟩ hnb
      have hdiv : (a ||| b) / 2 = a / 2 ||| b / 2 := Nat.or_div_two
      omega

/-!
## `Nibble` (src/nibble.rs)

The Rust `Nibble` is a fieldless enum with discriminants `0x0 .. 0xF`.
`from_u8` and `from_u8_upper` match on `v & 0x0F` (resp. `v & 0xF0`) with
an `unreachable!()` default arm; the embedding keeps that default arm as
an explicit `none` in `fromU8?` / `fromU8Upper?` so that its deadness is
theorem `C9...` below, and the total functions used by the rest of the
code are recovered with `getD`.
-/

inductive Nibble where
  | X0 | X1 | X2 | X3 | X4 | X5 | X6 | X7
  | X8 | X9 | XA | XB | XC | XD | XE | XF
deriving DecidableEq, Fintype, Repr

/-- `Nibble::as_u8`. -/
def Nibble.toU8 : Nibble → Nat
  | .X0 => 0x0 | .X1 => 0x1 | .X2 => 0x2 | .X3 => 0x3
  | .X4 => 0x4 | .X5 => 0x5 | .X6 => 0x6 | .X7 => 0x7
  | .X8 => 0x8 | .X9 => 0x9 | .XA => 0xA | .XB => 0xB
  | .XC => 0xC | .XD => 0xD | .XE => 0xE | .XF => 0xF

/-- `Nibble::from_u8` before its `unreachable!()` default is discharged:
the source matches `v & 0x0F` (embedded as `v % 16`) against `0x0 .. 0xF`,
with the default arm embedded as `none`. -/
def Nibble.fromU8? (v : Nat) : Option Nibble :=
  match v % 16 with
  | 0x0 => some .X0 | 0x1 => some .X1 | 0x2 => some .X2 | 0x3 => some .X3
  | 0x4 => some .X4 | 0x5 => some .X5 | 0x6 => some .X6 | 0x7 => some .X7
  | 0x8 => some .X8 | 0x9 => some .X9 | 0xA => some .XA | 0xB => some .XB
  | 0xC => some .XC | 0xD => some .XD | 0xE => some .XE | 0xF => some .XF
  | _ => none

/-- `Nibble::from_u8` (total form; theorem `C9...` shows the default arm
of `fromU8?` is dead, so the `getD` never applies). -/
def Nibble.fromU8 (v : Nat) : Nibble :=
  (Nibble.fromU8? v).getD .X0

/-- `Nibble::from_u8_upper` before its `unreachable!()` default: the
source matches `v & 0xF0` against `0x00, 0x10, .., 0xF0`; since
`v & 0xF0 = (v % 256 / 16) * 16`, the embedding matches `v % 256 / 16`
against `0x0 .. 0xF`, with the default arm embedded as `none`. -/
def Nibble.fromU8Upper? (v : Nat) : Option Nibble :=
  match v % 256 / 16 with
  | 0x0 => some .X0 | 0x1 => some .X1 | 0x2 => some .X2 | 0x3 => some .X3
  | 0x4 => some .X4 | 0x5 => some .X5 | 0x6 => some .X6 | 0x7 => some .X7
  | 0x8 => some .X8 | 0x9 => some .X9 | 0xA => some .XA | 0xB => some .XB
  | 0xC => some .XC | 0xD => some .XD | 0xE => some .XE | 0xF => some .XF
  | _ => none

/-- `Nibble::from_u8_upper` (total form). -/
def Nibble.fromU8Upper (v : Nat) : Nibble :=
  (Nibble.fromU8Upper? v).getD .X0

/-- `Nibble::as_u8_upper`: `(self as u8) << 4`. -/
def Nibble.toU8Upper (n : Nibble) : Nat :=
  n.toU8 * 16

/-- `Nibble::compose`: `self.as_u8() | upper.as_u8_upper()`; the two
operands have disjoint bits, so the embedding writes `+`. -/
def Nibble.compose (n upper : Nibble) : Nat :=
  n.toU8 + upper.toU8Upper

theorem Nibble.toU8_lt (n : Nibble) : n.toU8 < 16 := by
  cases n <;> decide

theorem Nibble.toU8_fromU8 (v : Nat) : (Nibble.fromU8 v).toU8 = v % 16 := by
  have h : v % 16 < 16 := Nat.mod_lt _ (by omega)
  unfold Nibble.fromU8 Nibble.fromU8?
  split <;> (simp_all [Nibble.toU8]; try omega)

theorem Nibble.toU8_fromU8Upper (v : Nat) : (Nibble.fromU8Upper v).toU8 = v % 256 / 16 := by
  have h : v % 256 / 16 < 16 := by omega
  unfold Nibble.fromU8Upper Nibble.fromU8Upper?
  split <;> (simp_all [Nibble.toU8]; try omega)

theorem Nibble.fromU8_toU8 (n : Nibble) : Nibble.fromU8 n.toU8 = n := by
  cases n <;> rfl

theorem Nibble.compose_lt (n upper : Nibble) : n.compose upper < 256 := by
  have h1 := n.toU8_lt
  have h2 := upper.toU8_lt
  unfold Nibble.compose Nibble.toU8Upper
  omega

theorem Nibble.compose_eq (n m : Nibble) : n.compose m = n.toU8 + 16 * m.toU8 := by
  unfold Nibble.compose Nibble.toU8Upper
  omega

theorem Nibble.compose_fromU8_fromU8Upper (v : Nat) :
    (Nibble.fromU8 v).compose (Nibble.fromU8Upper v) = v % 256 := by
  rw [Nibble.compose_eq, Nibble.toU8_fromU8, Nibble.toU8_fromU8Upper]
  omega

theorem Nibble.fromU8_compose (n upper : Nibble) : Nibble.fromU8 (n.compose upper) = n := by
  cases n <;> cases upper <;> rfl

theorem Nibble.fromU8Upper_compose (n upper : Nibble) :
    Nibble.fromU8Upper (n.compose upper) = upper := by
  cases n <;> cases upper <;> rfl

/-!
## `Register` (src/registers.rs)
-/

inductive Register where
  | Rz | Ra | Rb | Rc | Rd | Re | Rf | Rg
  | Rh | Ri | Rj | Rk | Ip | Sp | Fp | St
deriving DecidableEq, Fintype, Repr

/-- `Register::from_nibble`. -/
def Register.fromNibble : Nibble → Register
  | .X0 => .Rz | .X1 => .Ra | .X2 => .Rb | .X3 => .Rc
  | .X4 => .Rd | .X5 => .Re | .X6 => .Rf | .X7 => .Rg
  | .X8 => .Rh | .X9 => .Ri | .XA => .Rj | .XB => .Rk
  | .XC => .Ip | .XD => .Sp | .XE => .Fp | .XF => .St

/-- `Register::to_nibble`. -/
def Register.toNibble : Register → Nibble
  | .Rz => .X0 | .Ra => .X1 | .Rb => .X2 | .Rc => .X3
  | .Rd => .X4 | .Re => .X5 | .Rf => .X6 | .Rg => .X7
  | .Rh => .X8 | .Ri => .X9 | .Rj => .XA | .Rk => .XB
  | .Ip => .XC | .Sp => .XD | .Fp => .XE | .St => .XF

theorem Register.fromNibble_toNibble (r : Register) : Register.fromNibble r.toNibble = r := by
  cases r <;> rfl

/-!
## `Interrupt` (src/interrupt.rs) and `Port` (src/io.rs)
-/

/-- `Interrupt(pub u8)`. -/
structure Interrupt where
  val : Nat
deriving DecidableEq, Repr

/-- `Interrupt::try_from_u16`: the source matches `value.to_le_bytes()`
against `[value, 0]`, i.e. succeeds with the low byte iff the high byte
(`v / 256 % 256`) is zero. -/
def Interrupt.tryFromU16 (v : Nat) : Option Interrupt :=
  if v / 256 % 256 = 0 then some ⟨v % 256⟩ else none

/-- `Port(pub u16)`. -/
structure Port where
  val : Nat
deriving DecidableEq, Repr

/-!
## Sub-code enums (src/instruction.rs, mod instruction_set)
-/

inductive BranchCond where
  | Bra | Beq | Bez | Blt | Ble | Bltu | Bleu
  | Bne | Bnz | Bge | Bgt | Bgeu | Bgtu
deriving DecidableEq, Fintype, Repr

/-- `BranchCond::try_from_nibble`; the assigned codes skip `0x7`, `0x8`
and `0xF`. -/
def BranchCond.tryFromNibble : Nibble → Option BranchCond
  | .X0 => some .Bra
  | .X1 => some .Beq
  | .X2 => some .Bez
  | .X3 => some .Blt
  | .X4 => some .Ble
  | .X5 => some .Bltu
  | .X6 => some .Bleu
  | .X9 => some .Bne
  | .XA => some .Bnz
  | .XB => some .Bge
  | .XC => some .Bgt
  | .XD => some .Bgeu
  | .XE => some .Bgtu
  | _ => none

/-- The discriminant of each `BranchCond` value in the source enum,
as a nibble; the inverse used by the spec-modelled encoder. -/
def BranchCond.toNibble : BranchCond → Nibble
  | .Bra => .X0
  | .Beq => .X1
  | .Bez => .X2
  | .Blt => .X3
  | .Ble => .X4
  | .Bltu => .X5
  | .Bleu => .X6
  | .Bne => .X9
  | .Bnz => .XA
  | .Bge => .XB
  | .Bgt => .XC
  | .Bgeu => .XD
  | .Bgtu => .XE

theorem BranchCond_tryFromNibble_toNibble (cc : BranchCond) :
    BranchCond.tryFromNibble cc.toNibble = some cc := by
  cases cc <;> rfl

inductive LiType where
  | Lli | Llis | Lui | Luis | Lti | Ltis | Ltui | Ltuis
deriving DecidableEq, Fintype, Repr

/-- `LiType::try_from_nibble`. -/
def LiType.tryFromNibble : Nibble → Option LiType
  | .X0 => some .Lli
  | .X1 => some .Llis
  | .X2 => some .Lui
  | .X3 => some .Luis
  | .X4 => some .Lti
  | .X5 => some .Ltis
  | .X6 => some .Ltui
  | .X7 => some .Ltuis
  | _ => none

/-- The discriminant of each `LiType` value (`Lli = 0` .. `Ltuis = 7`). -/
def LiType.toNibble : LiType → Nibble
  | .Lli => .X0
  | .Llis => .X1
  | .Lui => .X2
  | .Luis => .X3
  | .Lti => .X4
  | .Ltis => .X5
  | .Ltui => .X6
  | .Ltuis => .X7

theorem LiType_tryFromNibble_toNibble (t : LiType) :
    LiType.tryFromNibble t.toNibble = some t := by
  cases t <;> rfl

inductive FloatPrecision where
  | F16 | F32 | F64
deriving DecidableEq, Fintype, Repr

/-- `FloatPrecision::try_from_u8`. -/
def FloatPrecision.tryFromU8 : Nat → Option FloatPrecision
  | 0 => some .F16
  | 1 => some .F32
  | 2 => some .F64
  | _ => none

/-- `FloatPrecision::try_from_nibble`. -/
def FloatPrecision.tryFromNibble : Nibble → Option FloatPrecision
  | .X0 => some .F16
  | .X1 => some .F32
  | .X2 => some .F64
  | _ => none

/-- The discriminant of each `FloatPrecision` value (`F16 = 0`, `F32 = 1`,
`F64 = 2`). -/
def FloatPrecision.code : FloatPrecision → Nat
  | .F16 => 0
  | .F32 => 1
  | .F64 => 2

theorem FloatPrecision.tryFromNibble_code (p : FloatPrecision) :
    FloatPrecision.tryFromNibble (Nibble.fromU8 p.code) = some p := by
  cases p <;> rfl

/-- `FloatCastType { to, from }`; the Rust field names are `to` and
`from` (`from` is a Lean keyword, hence `toP` / `fromP`). -/
structure FloatCastType where
  toP : FloatPrecision
  fromP : FloatPrecision
deriving DecidableEq, Fintype, Repr

/-- `FloatCastType::try_from_nibble`: the source computes
`FloatPrecision::try_from_u8((value as u8) & 0x11)` for the `to` part and
`FloatPrecision::try_from_u8((value as u8) >> 2)` for the `from` part. -/
def FloatCastType.tryFromNibble (v : Nibble) : Option FloatCastType :=
  match FloatPrecision.tryFromU8 (v.toU8 &&& 0x11), FloatPrecision.tryFromU8 (v.toU8 >>> 2) with
  | some toP, some fromP => some ⟨toP, fromP⟩
  | _, _ => none

/-- The nibble packing a cast's precision pair, the inverse of the
decoder's bit split (`to` in the low two bits, `from` in bits 2..3);
used by the spec-modelled encoder. -/
def FloatCastType.toNibble (c : FloatCastType) : Nibble :=
  Nibble.fromU8 (c.toP.code + 4 * c.fromP.code)

/-!
## Instruction formats E, R, M, F, B (src/instruction.rs, mod encoding)

A 32-bit word `w` is embedded as a `Nat` below `2 ^ 32`; its little-endian
bytes are `w % 256`, `w / 2 ^ 8 % 256`, `w / 2 ^ 16 % 256` and
`w / 2 ^ 24 % 256`, and `from_le_bytes` is the corresponding sum.
-/

/-- `Instruction::opcode`: byte 0 of the word. -/
def instrOpcode (w : Nat) : Nat :=
  w % 256

/-- Format E: `imm(8), func, rs2, rs1, rde`. -/
structure E where
  imm : Nat
  func : Nibble
  rs2 : Nibble
  rs1 : Nibble
  rde : Nibble
deriving DecidableEq, Repr

/-- `E::from_u32`. -/
def E.fromU32 (w : Nat) : E :=
  { imm := w / 2 ^ 8 % 256
    func := Nibble.fromU8 (w / 2 ^ 16 % 256)
    rs2 := Nibble.fromU8Upper (w / 2 ^ 16 % 256)
    rs1 := Nibble.fromU8 (w / 2 ^ 24 % 256)
    rde := Nibble.fromU8Upper (w / 2 ^ 24 % 256) }

/-- `E::to_u32`: `from_le_bytes([opcode, imm, func.compose(rs2), rs1.compose(rde)])`. -/
def E.toU32 (e : E) (opcode : Nat) : Nat :=
  opcode + 2 ^ 8 * e.imm + 2 ^ 16 * (e.func.compose e.rs2) + 2 ^ 24 * (e.rs1.compose e.rde)

/-- Format R: `imm(12), rs2, rs1, rde`. -/
structure R where
  imm : Nat
  rs2 : Nibble
  rs1 : Nibble
  rde : Nibble
deriving DecidableEq, Repr

/-- `R::from_u32`: `imm = (value >> 8) & 0x0FFF`, embedded as
`w / 2 ^ 8 % 2 ^ 12`. -/
def R.fromU32 (w : Nat) : R :=
  { imm := w / 2 ^ 8 % 2 ^ 12
    rs2 := Nibble.fromU8Upper (w / 2 ^ 16 % 256)
    rs1 := Nibble.fromU8 (w / 2 ^ 24 % 256)
    rde := Nibble.fromU8Upper (w / 2 ^ 24 % 256) }

/-- `R::to_u32`: the 12-bit immediate is split into its low byte and its
high nibble `Nibble::from_u8(imm1)` (which masks away bits 12..15 of an
out-of-range immediate), then packed as
`from_le_bytes([opcode, imm0, Nibble::from_u8(imm1).compose(rs2), rs1.compose(rde)])`. -/
def R.toU32 (r : R) (opcode : Nat) : Nat :=
  opcode + 2 ^ 8 * (r.imm % 256) + 2 ^ 16 * ((Nibble.fromU8 (r.imm / 256)).compose r.rs2)
    + 2 ^ 24 * (r.rs1.compose r.rde)

/-- Format M: `imm(16), rs1, rde`. -/
structure M where
  imm : Nat
  rs1 : Nibble
  rde : Nibble
deriving DecidableEq, Repr

/-- `M::from_u32`: `imm = u16::from_le_bytes([b1, b2])`. -/
def M.fromU32 (w : Nat) : M :=
  { imm := w / 2 ^ 8 % 256 + 256 * (w / 2 ^ 16 % 256)
    rs1 := Nibble.fromU8 (w / 2 ^ 24 % 256)
    rde := Nibble.fromU8Upper (w / 2 ^ 24 % 256) }

/-- `M::to_u32`: `from_le_bytes([opcode, imm0, imm1, rs1.compose(rde)])`. -/
def M.toU32 (m : M) (opcode : Nat) : Nat :=
  opcode + 2 ^ 8 * (m.imm % 256) + 2 ^ 16 * (m.imm / 256 % 256) + 2 ^ 24 * (m.rs1.compose m.rde)

/-- Format F: `imm(16), func, rde`. -/
structure F where
  imm : Nat
  func : Nibble
  rde : Nibble
deriving DecidableEq, Repr

/-- `F::from_u32`. -/
def F.fromU32 (w : Nat) : F :=
  { imm := w / 2 ^ 8 % 256 + 256 * (w / 2 ^ 16 % 256)
    func := Nibble.fromU8 (w / 2 ^ 24 % 256)
    rde := Nibble.fromU8Upper (w / 2 ^ 24 % 256) }

/-- `F::to_u32`: `from_le_bytes([opcode, imm0, imm1, func.compose(rde)])`. -/
def F.toU32 (f : F) (opcode : Nat) : Nat :=
  opcode + 2 ^ 8 * (f.imm % 256) + 2 ^ 16 * (f.imm / 256 % 256) + 2 ^ 24 * (f.func.compose f.rde)

/-- Format B: `imm(20), func`. -/
structure B where
  imm : Nat
  func : Nibble
deriving DecidableEq, Repr

/-- `B::from_u32`: `imm = (value >> 8) & 0x000F_FFFF`, embedded as
`w / 2 ^ 8 % 2 ^ 20`. -/
def B.fromU32 (w : Nat) : B :=
  { imm := w / 2 ^ 8 % 2 ^ 20
    func := Nibble.fromU8Upper (w / 2 ^ 24 % 256) }

/-- `B::to_u32`: `(opcode as u32) | (imm << 8) | ((func.as_u8() as u32) << 28)`.
Unlike every other format, the immediate is a full `u32` and is not
masked to its declared 20 bits before packing; the `u32` shift discards
bits above bit 31, embedded as `% 2 ^ 32`. -/
def B.toU32 (b : B) (opcode : Nat) : Nat :=
  opcode ||| (b.imm <<< 8) % 2 ^ 32 ||| b.func.toU8 <<< 28

theorem and_eq_zero_of_lt_of_dvd {n : Nat} (a b : Nat) (ha : a < 2 ^ n) (hb : 2 ^ n ∣ b) :
    a &&& b = 0 := by
  apply Nat.eq_of_testBit_eq
  intro i
  rw [Nat.testBit_and, Nat.zero_testBit]
  rcases Nat.lt_or_ge i n with hin | hin
  · have hbf : b.testBit i = false := by
      obtain ⟨k, rfl⟩ := hb
      have hp : 2 ^ i * 2 * 2 ^ (n - i - 1) = 2 ^ n := by
        rw [← pow_succ, ← pow_add]
        congr 1
        omega
      have h1 : 2 ^ n * k = 2 ^ i * (2 * (2 ^ (n - i - 1) * k)) := by
        rw [← hp]
        ring
      rw [Nat.testBit_to_div_mod, h1,
        Nat.mul_div_cancel_left _ (Nat.pos_pow_of_pos i (by omega)),
        Nat.mul_mod_right]
      decide
    simp [hbf]
  · have haf : a.testBit i = false :=
      Nat.testBit_lt_two_pow (lt_of_lt_of_le ha (Nat.pow_le_pow_right (by omega) hin))
    simp [haf]

/-- Normal form of `B::to_u32` when the immediate is within its declared
20 bits: the three or-ed operands are then disjoint. -/
theorem B.toU32_eq (b : B) (opcode : Nat) (hi : b.imm < 2 ^ 20) (ho : opcode < 256) :
    B.toU32 b opcode = opcode + 2 ^ 8 * b.imm + 2 ^ 28 * b.func.toU8 := by
  have hsh : b.imm <<< 8 = b.imm * 2 ^ 8 := Nat.shiftLeft_eq _ _
  have hmod : b.imm * 2 ^ 8 % 2 ^ 32 = b.imm * 2 ^ 8 := Nat.mod_eq_of_lt (by omega)
  have hf : b.func.toU8 <<< 28 = b.func.toU8 * 2 ^ 28 := Nat.shiftLeft_eq _ _
  have h1 : opcode &&& b.imm * 2 ^ 8 = 0 :=
    and_eq_zero_of_lt_of_dvd (n := 8) _ _ ho ⟨b.imm, by ring⟩
  have hfu := b.func.toU8_lt
  have h2 : (opcode + b.imm * 2 ^ 8) &&& b.func.toU8 * 2 ^ 28 = 0 :=
    and_eq_zero_of_lt_of_dvd (n := 28) _ _ (by omega) ⟨b.func.toU8, by ring⟩
  unfold B.toU32
  rw [hsh, hmod, hf, lor_eq_add_of_and_eq_zero _ _ h1, lor_eq_add_of_and_eq_zero _ _ h2]
  ring

/-!
## Format decode/encode round-trip lemmas

For every format, decoding a packed word recovers the packed record (when
the record's immediate is within its declared width), and byte 0 of the
packed word is the packed opcode.
-/

theorem E_fromU32_toU32 (e : E) (opcode : Nat) (hi : e.imm < 2 ^ 8) (ho : opcode < 256) :
    E.fromU32 (E.toU32 e opcode) = e := by
  obtain ⟨imm, func, rs2, rs1, rde⟩ := e
  have hc1 := func.compose_lt rs2
  have hc2 := rs1.compose_lt rde
  unfold E.toU32 E.fromU32
  simp only at *
  have h2 : (opcode + 2 ^ 8 * imm + 2 ^ 16 * func.compose rs2 + 2 ^ 24 * rs1.compose rde)
      / 2 ^ 8 % 256 = imm := by omega
  have h3 : (opcode + 2 ^ 8 * imm + 2 ^ 16 * func.compose rs2 + 2 ^ 24 * rs1.compose rde)
      / 2 ^ 16 % 256 = func.compose rs2 := by omega
  have h4 : (opcode + 2 ^ 8 * imm + 2 ^ 16 * func.compose rs2 + 2 ^ 24 * rs1.compose rde)
      / 2 ^ 24 % 256 = rs1.compose rde := by omega
  rw [h2, h3, h4, Nibble.fromU8_compose, Nibble.fromU8Upper_compose,
    Nibble.fromU8_compose, Nibble.fromU8Upper_compose]

theorem E_opcode_toU32 (e : E) (opcode : Nat) (ho : opcode < 256) :
    instrOpcode (E.toU32 e opcode) = opcode := by
  obtain ⟨imm, func, rs2, rs1, rde⟩ := e
  unfold E.toU32 instrOpcode
  simp only at *
  omega

theorem R_fromU32_toU32 (r : R) (opcode : Nat) (hi : r.imm < 2 ^ 12) (ho : opcode < 256) :
    R.fromU32 (R.toU32 r opcode) = r := by
  obtain ⟨imm, rs2, rs1, rde⟩ := r
  have hc2 := rs1.compose_lt rde
  have hn : (Nibble.fromU8 (imm / 256)).toU8 = imm / 256 % 16 := Nibble.toU8_fromU8 _
  unfold R.toU32 R.fromU32
  simp only [R.mk.injEq] at *
  have hcv : (Nibble.fromU8 (imm / 256)).compose rs2
      = (Nibble.fromU8 (imm / 256)).toU8 + rs2.toU8 * 16 := rfl
  have hrs2 := rs2.toU8_lt
  have hc1 : (Nibble.fromU8 (imm / 256)).compose rs2 < 256 :=
    Nibble.compose_lt _ _
  refine ⟨by omega, ?_, ?_, ?_⟩
  · have h3 : (opcode + 2 ^ 8 * (imm % 256) + 2 ^ 16 * ((Nibble.fromU8 (imm / 256)).compose rs2)
        + 2 ^ 24 * rs1.compose rde) / 2 ^ 16 % 256 = (Nibble.fromU8 (imm / 256)).compose rs2 := by
      omega
    rw [h3, Nibble.fromU8Upper_compose]
  · have h4 : (opcode + 2 ^ 8 * (imm % 256) + 2 ^ 16 * ((Nibble.fromU8 (imm / 256)).compose rs2)
        + 2 ^ 24 * rs1.compose rde) / 2 ^ 24 % 256 = rs1.compose rde := by omega
    rw [h4, Nibble.fromU8_compose]
  · have h4 : (opcode + 2 ^ 8 * (imm % 256) + 2 ^ 16 * ((Nibble.fromU8 (imm / 256)).compose rs2)
        + 2 ^ 24 * rs1.compose rde) / 2 ^ 24 % 256 = rs1.compose rde := by omega
    rw [h4, Nibble.fromU8Upper_compose]

theorem R_opcode_toU32 (r : R) (opcode : Nat) (ho : opcode < 256) :
    instrOpcode (R.toU32 r opcode) = opcode := by
  obtain ⟨imm, rs2, rs1, rde⟩ := r
  unfold R.toU32 instrOpcode
  simp only at *
  omega

theorem M_fromU32_toU32 (m : M) (opcode : Nat) (hi : m.imm < 2 ^ 16) (ho : opcode < 256) :
    M.fromU32 (M.toU32 m opcode) = m := by
  obtain ⟨imm, rs1, rde⟩ := m
  have hc2 := rs1.compose_lt rde
  unfold M.toU32 M.fromU32
  simp only [M.mk.injEq] at *
  refine ⟨by omega, ?_, ?_⟩
  · have h4 : (opcode + 2 ^ 8 * (imm % 256) + 2 ^ 16 * (imm / 256 % 256)
        + 2 ^ 24 * rs1.compose rde) / 2 ^ 24 % 256 = rs1.compose rde := by omega
    rw [h4, Nibble.fromU8_compose]
  · have h4 : (opcode + 2 ^ 8 * (imm % 256) + 2 ^ 16 * (imm / 256 % 256)
        + 2 ^ 24 * rs1.compose rde) / 2 ^ 24 % 256 = rs1.compose rde := by omega
    rw [h4, Nibble.fromU8Upper_compose]

theorem M_opcode_toU32 (m : M) (opcode : Nat) (ho : opcode < 256) :
    instrOpcode (M.toU32 m opcode) = opcode := by
  obtain ⟨imm, rs1, rde⟩ := m
  unfold M.toU32 instrOpcode
  simp only at *
  omega

theorem F_fromU32_toU32 (f : F) (opcode : Nat) (hi : f.imm < 2 ^ 16) (ho : opcode < 256) :
    F.fromU32 (F.toU32 f opcode) = f := by
  obtain ⟨imm, func, rde⟩ := f
  have hc2 := func.compose_lt rde
  unfold F.toU32 F.fromU32
  simp only [F.mk.injEq] at *
  refine ⟨by omega, ?_, ?_⟩
  · have h4 : (opcode + 2 ^ 8 * (imm % 256) + 2 ^ 16 * (imm / 256 % 256)
        + 2 ^ 24 * func.compose rde) / 2 ^ 24 % 256 = func.compose rde := by omega
    rw [h4, Nibble.fromU8_compose]
  · have h4 : (opcode + 2 ^ 8 * (imm % 256) + 2 ^ 16 * (imm / 256 % 256)
        + 2 ^ 24 * func.compose rde) / 2 ^ 24 % 256 = func.compose rde := by omega
    rw [h4, Nibble.fromU8Upper_compose]

theorem F_opcode_toU32 (f : F) (opcode : Nat) (ho : opcode < 256) :
    instrOpcode (F.toU32 f opcode) = opcode := by
  obtain ⟨imm, func, rde⟩ := f
  unfold F.toU32 instrOpcode
  simp only at *
  omega

theorem B_fromU32_toU32 (b : B) (opcode : Nat) (hi : b.imm < 2 ^ 20) (ho : opcode < 256) :
    B.fromU32 (B.toU32 b opcode) = b := by
  rw [B.toU32_eq b opcode hi ho]
  obtain ⟨imm, func⟩ := b
  have hfu := func.toU8_lt
  unfold B.fromU32
  simp only [B.mk.injEq] at *
  refine ⟨by omega, ?_⟩
  have hlow : (Nibble.fromU8 (imm / 2 ^ 16)).toU8 = imm / 2 ^ 16 % 16 := Nibble.toU8_fromU8 _
  have hcomp : (Nibble.fromU8 (imm / 2 ^ 16)).compose func
      = imm / 2 ^ 16 % 16 + func.toU8 * 16 := by
    unfold Nibble.compose Nibble.toU8Upper
    omega
  have h4 : (opcode + 2 ^ 8 * imm + 2 ^ 28 * func.toU8) / 2 ^ 24 % 256
      = (Nibble.fromU8 (imm / 2 ^ 16)).compose func := by
    rw [hcomp]
    omega
  rw [h4, Nibble.fromU8Upper_compose]

theorem B_opcode_toU32 (b : B) (opcode : Nat) (hi : b.imm < 2 ^ 20) (ho : opcode < 256) :
    instrOpcode (B.toU32 b opcode) = opcode := by
  rw [B.toU32_eq b opcode hi ho]
  have hfu := b.func.toU8_lt
  unfold instrOpcode
  omega

/-!
## Unconditionally-masked forms of the decode-of-encode lemmas

`M`/`F`/`R` encoders mask their immediate structurally (only whole bytes
or a nibble of it are packed), so decoding an encoded record recovers
the immediate reduced mod its field width with no side condition; these
forms are convenient for the variant-level round-trip proof.
-/

theorem M_fromU32_toU32_mk (imm : Nat) (rs1 rde : Nibble) (opc : Nat) (ho : opc < 256) :
    M.fromU32 (M.toU32 ⟨imm, rs1, rde⟩ opc) = ⟨imm % 65536, rs1, rde⟩ := by
  have hc2 := rs1.compose_lt rde
  unfold M.toU32 M.fromU32
  simp only [M.mk.injEq]
  refine ⟨by omega, ?_, ?_⟩
  · have h4 : (opc + 2 ^ 8 * (imm % 256) + 2 ^ 16 * (imm / 256 % 256)
        + 2 ^ 24 * rs1.compose rde) / 2 ^ 24 % 256 = rs1.compose rde := by omega
    rw [h4, Nibble.fromU8_compose]
  · have h4 : (opc + 2 ^ 8 * (imm % 256) + 2 ^ 16 * (imm / 256 % 256)
        + 2 ^ 24 * rs1.compose rde) / 2 ^ 24 % 256 = rs1.compose rde := by omega
    rw [h4, Nibble.fromU8Upper_compose]

theorem F_fromU32_toU32_mk (imm : Nat) (func rde : Nibble) (opc : Nat) (ho : opc < 256) :
    F.fromU32 (F.toU32 ⟨imm, func, rde⟩ opc) = ⟨imm % 65536, func, rde⟩ := by
  have hc2 := func.compose_lt rde
  unfold F.toU32 F.fromU32
  simp only [F.mk.injEq]
  refine ⟨by omega, ?_, ?_⟩
  · have h4 : (opc + 2 ^ 8 * (imm % 256) + 2 ^ 16 * (imm / 256 % 256)
        + 2 ^ 24 * func.compose rde) / 2 ^ 24 % 256 = func.compose rde := by omega
    rw [h4, Nibble.fromU8_compose]
  · have h4 : (opc + 2 ^ 8 * (imm % 256) + 2 ^ 16 * (imm / 256 % 256)
        + 2 ^ 24 * func.compose rde) / 2 ^ 24 % 256 = func.compose rde := by omega
    rw [h4, Nibble.fromU8Upper_compose]

theorem R_fromU32_toU32_mk (imm : Nat) (rs2 rs1 rde : Nibble) (opc : Nat) (ho : opc < 256) :
    R.fromU32 (R.toU32 ⟨imm, rs2, rs1, rde⟩ opc) = ⟨imm % 4096, rs2, rs1, rde⟩ := by
  have hc2 := rs1.compose_lt rde
  have hn : (Nibble.fromU8 (imm / 256)).toU8 = imm / 256 % 16 := Nibble.toU8_fromU8 _
  have hc1 : (Nibble.fromU8 (imm / 256)).compose rs2 < 256 := Nibble.compose_lt _ _
  have hcv : (Nibble.fromU8 (imm / 256)).compose rs2
      = (Nibble.fromU8 (imm / 256)).toU8 + 16 * rs2.toU8 := Nibble.compose_eq _ _
  have hrs2 := rs2.toU8_lt
  unfold R.toU32 R.fromU32
  simp only [R.mk.injEq]
  refine ⟨by omega, ?_, ?_, ?_⟩
  · have h3 : (opc + 2 ^ 8 * (imm % 256) + 2 ^ 16 * ((Nibble.fromU8 (imm / 256)).compose rs2)
        + 2 ^ 24 * rs1.compose rde) / 2 ^ 16 % 256
        = (Nibble.fromU8 (imm / 256)).compose rs2 := by omega
    rw [h3, Nibble.fromU8Upper_compose]
  · have h4 : (opc + 2 ^ 8 * (imm % 256) + 2 ^ 16 * ((Nibble.fromU8 (imm / 256)).compose rs2)
        + 2 ^ 24 * rs1.compose rde) / 2 ^ 24 % 256 = rs1.compose rde := by omega
    rw [h4, Nibble.fromU8_compose]
  · have h4 : (opc + 2 ^ 8 * (imm % 256) + 2 ^ 16 * ((Nibble.fromU8 (imm / 256)).compose rs2)
        + 2 ^ 24 * rs1.compose rde) / 2 ^ 24 % 256 = rs1.compose rde := by omega
    rw [h4, Nibble.fromU8Upper_compose]

theorem E_fromU32_toU32_zero (func rs2 rs1 rde : Nibble) (opc : Nat) (ho : opc < 256) :
    E.fromU32 (E.toU32 ⟨0, func, rs2, rs1, rde⟩ opc) = ⟨0, func, rs2, rs1, rde⟩ :=
  E_fromU32_toU32 _ _ (by norm_num) ho

/-!
## Arithmetic helpers (src/helper.rs, mod ops)
-/

/-- `AddResult` (src/helper.rs). -/
structure AddResult where
  result : Nat
  unsigned_overflow : Bool
  signed_overflow : Bool
deriving DecidableEq, Repr

/-- Rust `u64::overflowing_add`. -/
def overflowingAddU64 (a b : Nat) : Nat × Bool :=
  ((a + b) % 2 ^ 64, decide (2 ^ 64 ≤ a + b))

/-- Rust `u64::overflowing_sub`. -/
def overflowingSubU64 (a b : Nat) : Nat × Bool :=
  ((a + 2 ^ 64 - b) % 2 ^ 64, decide (a < b))

/-- Rust `i64::overflowing_add`: the wrapped sum, and whether the exact
sum left the `i64` range. -/
def overflowingAddI64 (x y : Int) : Int × Bool :=
  (wrapI64 (x + y), decide (x + y < -2 ^ 63 ∨ 2 ^ 63 ≤ x + y))

/-- Rust `i64::overflowing_sub`. -/
def overflowingSubI64 (x y : Int) : Int × Bool :=
  (wrapI64 (x - y), decide (x - y < -2 ^ 63 ∨ 2 ^ 63 ≤ x - y))

/-- `ops::add` (src/helper.rs): `carrying_add_u` combines its two step
flags with `|`, `carrying_add_i` with `^`; the returned result is the
unsigned-domain value. -/
def ops.add (a b : Nat) (carry : Bool) : AddResult :=
  let u1 := overflowingAddU64 a b
  let u2 := overflowingAddU64 u1.1 carry.toNat
  let i1 := overflowingAddI64 (toI64 a) (toI64 b)
  let i2 := overflowingAddI64 i1.1 carry.toNat
  { result := u2.1
    unsigned_overflow := u1.2 || u2.2
    signed_overflow := i1.2.xor i2.2 }

/-- `ops::sub` (src/helper.rs): as `ops::add`, with borrows. -/
def ops.sub (a b : Nat) (carry : Bool) : AddResult :=
  let u1 := overflowingSubU64 a b
  let u2 := overflowingSubU64 u1.1 carry.toNat
  let i1 := overflowingSubI64 (toI64 a) (toI64 b)
  let i2 := overflowingSubI64 i1.1 carry.toNat
  { result := u2.1
    unsigned_overflow := u1.2 || u2.2
    signed_overflow := i1.2.xor i2.2 }

/-- Rust `i64::checked_div`: `none` on division by zero and on
`i64::MIN / -1`; otherwise the quotient truncated toward zero. -/
def checkedDivI64 (x y : Int) : Option Int :=
  if y = 0 ∨ (x = -2 ^ 63 ∧ y = -1) then none else some (x.tdiv y)

/-- Rust `i64::checked_rem`: `none` under the same conditions as
`checked_div`; otherwise the truncating remainder. -/
def checkedRemI64 (x y : Int) : Option Int :=
  if y = 0 ∨ (x = -2 ^ 63 ∧ y = -1) then none else some (x.tmod y)

/-- Rust `i64::checked_rem_euclid`: `none` under the same conditions as
`checked_div`; otherwise the Euclidean (non-negative) remainder. -/
def checkedRemEuclidI64 (x y : Int) : Option Int :=
  if y = 0 ∨ (x = -2 ^ 63 ∧ y = -1) then none else some (x % y)

/-- `ops::idiv`: `option_u64((a as i64).checked_div(b as i64))`. -/
def ops.idiv (a b : Nat) : Option Nat :=
  (checkedDivI64 (toI64 a) (toI64 b)).map toU64

/-- `ops::udiv`: `a.checked_div(b)`. -/
def ops.udiv (a b : Nat) : Option Nat :=
  if b = 0 then none else some (a / b)

/-- `ops::rem`: `option_u64((a as i64).checked_rem(b as i64))`. -/
def ops.rem (a b : Nat) : Option Nat :=
  (checkedRemI64 (toI64 a) (toI64 b)).map toU64

/-- `ops::mod`: `option_u64((a as i64).checked_rem_euclid(b as i64))`. -/
def ops.mod (a b : Nat) : Option Nat :=
  (checkedRemEuclidI64 (toI64 a) (toI64 b)).map toU64

/-!
## Bit-slice accessors, boolean slices (src/helper.rs, `impl_bit_access_from_bool`)

The macro-generated `impl BitAccessTo<$type> for bool` reads a boolean
slice with `(to >> INDEX) != 0` and writes it with
`*to |= 1 << INDEX` / `*to &= !(1 << INDEX)`.  The `u8` instance is
embedded here (the other integer widths are identical up to the width);
`!x` on `u8` is complement within 8 bits.
-/

/-- `<bool as BitAccessTo<u8>>::access_to`: `(to >> INDEX) != 0`. -/
def boolAccessToU8 (INDEX : Nat) (c : Nat) : Bool :=
  decide (c >>> INDEX ≠ 0)

/-- `<bool as BitAccessTo<u8>>::write_to`. -/
def boolWriteToU8 (INDEX : Nat) (c : Nat) (v : Bool) : Nat :=
  if v then c ||| 1 <<< INDEX else c &&& ((2 ^ 8 - 1) ^^^ 1 <<< INDEX)

/-!
## Sign extension (src/helper.rs)
-/

/-- `sign_extend<BIT_SIZE>(val)`: `let shift = 64 - BIT_SIZE;
(((val << shift) as i64) >> shift) as u64`.  The `u64` left shift
discards bits past bit 63 (`% 2 ^ 64`); the `i64` right shift is
arithmetic, i.e. floor division by `2 ^ shift`. -/
def sign_extend (BIT_SIZE : Nat) (val : Nat) : Nat :=
  let shift := 64 - BIT_SIZE
  toU64 ((toI64 (val <<< shift % 2 ^ 64)).fdiv (2 ^ shift))

/-!
## `InstructionSet` (src/instruction.rs, mod instruction_set)

The tagged union of every concrete operation.  Immediates are `Nat`
fields whose width bound (`u8`/`u16`/20-bit) is tracked by the
well-formedness predicate `InstructionSet.WF` below.
-/

inductive InstructionSet where
  | int (imm8 : Interrupt)
  | iret
  | ires
  | usr (rd : Register)
  | outr (rd rs : Register)
  | outi (imm16 : Port) (rs : Register)
  | inr (rd rs : Register)
  | ini (rd : Register) (imm16 : Port)
  | jal (rs : Register) (imm16 : Nat)
  | jalr (rd rs : Register) (imm16 : Nat)
  | ret
  | retr (rs : Register)
  | branch (cc : BranchCond) (imm20 : Nat)
  | push (rs : Register)
  | pop (rd : Register)
  | enter
  | leave
  | li (rd : Register) (func : LiType) (imm : Nat)
  | lw (rd rs rn : Register) (sh : Nibble) (off : Nat)
  | lh (rd rs rn : Register) (sh : Nibble) (off : Nat)
  | lhs (rd rs rn : Register) (sh : Nibble) (off : Nat)
  | lq (rd rs rn : Register) (sh : Nibble) (off : Nat)
  | lqs (rd rs rn : Register) (sh : Nibble) (off : Nat)
  | lb (rd rs rn : Register) (sh : Nibble) (off : Nat)
  | lbs (rd rs rn : Register) (sh : Nibble) (off : Nat)
  | sw (rd rs rn : Register) (sh : Nibble) (off : Nat)
  | sh (rd rs rn : Register) (sh : Nibble) (off : Nat)
  | sq (rd rs rn : Register) (sh : Nibble) (off : Nat)
  | sb (rd rs rn : Register) (sh : Nibble) (off : Nat)
  | cmpr (r1 r2 : Register)
  | cmpi (r1 : Register) (s : Bool) (imm : Nat)
  | addr (rd r1 r2 : Register)
  | subr (rd r1 r2 : Register)
  | imulr (rd r1 r2 : Register)
  | idivr (rd r1 r2 : Register)
  | umulr (rd r1 r2 : Register)
  | udivr (rd r1 r2 : Register)
  | remr (rd r1 r2 : Register)
  | modr (rd r1 r2 : Register)
  | andr (rd r1 r2 : Register)
  | orr (rd r1 r2 : Register)
  | norr (rd r1 r2 : Register)
  | xorr (rd r1 r2 : Register)
  | shlr (rd r1 r2 : Register)
  | asrr (rd r1 r2 : Register)
  | lsrr (rd r1 r2 : Register)
  | bitr (rd r1 r2 : Register)
  | addi (rd r1 : Register) (imm16 : Nat)
  | subi (rd r1 : Register) (imm16 : Nat)
  | imuli (rd r1 : Register) (imm16 : Nat)
  | idivi (rd r1 : Register) (imm16 : Nat)
  | umuli (rd r1 : Register) (imm16 : Nat)
  | udivi (rd r1 : Register) (imm16 : Nat)
  | remi (rd r1 : Register) (imm16 : Nat)
  | modi (rd r1 : Register) (imm16 : Nat)
  | andi (rd r1 : Register) (imm16 : Nat)
  | ori (rd r1 : Register) (imm16 : Nat)
  | nori (rd r1 : Register) (imm16 : Nat)
  | xori (rd r1 : Register) (imm16 : Nat)
  | shli (rd r1 : Register) (imm16 : Nat)
  | asri (rd r1 : Register) (imm16 : Nat)
  | lsri (rd r1 : Register) (imm16 : Nat)
  | biti (rd r1 : Register) (imm16 : Nat)
  | fcmp (r1 r2 : Register) (p : FloatPrecision)
  | fto (rd rs : Register) (p : FloatPrecision)
  | ffrom (rd rs : Register) (p : FloatPrecision)
  | fneg (rd rs : Register) (p : FloatPrecision)
  | fabs (rd rs : Register) (p : FloatPrecision)
  | fadd (rd r1 r2 : Register) (p : FloatPrecision)
  | fsub (rd r1 r2 : Register) (p : FloatPrecision)
  | fmul (rd r1 r2 : Register) (p : FloatPrecision)
  | fdiv (rd r1 r2 : Register) (p : FloatPrecision)
  | fma (rd r1 r2 : Register) (p : FloatPrecision)
  | fsqrt (rd r1 : Register) (p : FloatPrecision)
  | fmin (rd r1 r2 : Register) (p : FloatPrecision)
  | fmax (rd r1 r2 : Register) (p : FloatPrecision)
  | fsat (rd r1 : Register) (p : FloatPrecision)
  | fcnv (rd r1 : Register) (p : FloatCastType)
  | fnan (rd r1 : Register) (p : FloatPrecision)

/-- `InstructionSet::try_from_instruction`, with the `unreachable!()`
arms kept visible: the outer `Option` layer is `none` exactly on an
`unreachable!()` arm (a panic), while the inner `Option` is the
function's actual return value (`none` = decode failure).  The outer
or-patterns mirror the source's range patterns; each inner
`match instrOpcode w` mirrors the source's nested `match opcode` whose
default arm is `unreachable!()`.  The two 0x20..=0x3F arms (the source
guards the first with `opcode % 2 == 0`) appear as the parity `if`. -/
def InstructionSet.tryFromInstruction? (w : Nat) : Option (Option InstructionSet) :=
  match instrOpcode w with
  | 0x01 =>
    let f := F.fromU32 w
    let imm8 := Interrupt.tryFromU16 f.imm
    let rd := Register.fromNibble f.rde
    some (match f.func with
      | .X0 => imm8.map fun i => .int i
      | .X1 => some .iret
      | .X2 => some .ires
      | .X3 => some (.usr rd)
      | _ => none)
  | 0x02 | 0x03 | 0x04 | 0x05 =>
    let m := M.fromU32 w
    let rs := Register.fromNibble m.rs1
    let rd := Register.fromNibble m.rde
    let imm16 := Port.mk m.imm
    match instrOpcode w with
    | 0x02 => some (some (.outr rd rs))
    | 0x03 => some (some (.outi imm16 rs))
    | 0x04 => some (some (.inr rd rs))
    | 0x05 => some (some (.ini rd imm16))
    | _ => none
  | 0x06 | 0x07 | 0x08 | 0x09 =>
    let m := M.fromU32 w
    let rs := Register.fromNibble m.rs1
    let rd := Register.fromNibble m.rde
    match instrOpcode w with
    | 0x06 => some (some (.jal rs m.imm))
    | 0x07 => some (some (.jalr rd rs m.imm))
    | 0x08 => some (some .ret)
    | 0x09 => some (some (.retr rs))
    | _ => none
  | 0x0A =>
    let b := B.fromU32 w
    some ((BranchCond.tryFromNibble b.func).map fun cc => .branch cc b.imm)
  | 0x0B => some (some (.push (Register.fromNibble (M.fromU32 w).rs1)))
  | 0x0C => some (some (.pop (Register.fromNibble (M.fromU32 w).rde)))
  | 0x0D => some (some .enter)
  | 0x0E => some (some .leave)
  | 0x10 =>
    let f := F.fromU32 w
    let rd := Register.fromNibble f.rde
    some ((LiType.tryFromNibble f.func).map fun func => .li rd func f.imm)
  | 0x11 | 0x12 | 0x13 | 0x14 | 0x15 | 0x16 | 0x17 | 0x18 | 0x19 | 0x1A | 0x1B =>
    let e := E.fromU32 w
    let rn := Register.fromNibble e.rs2
    let rs := Register.fromNibble e.rs1
    let rd := Register.fromNibble e.rde
    match instrOpcode w with
    | 0x11 => some (some (.lw rd rs rn e.func e.imm))
    | 0x12 => some (some (.lh rd rs rn e.func e.imm))
    | 0x13 => some (some (.lhs rd rs rn e.func e.imm))
    | 0x14 => some (some (.lq rd rs rn e.func e.imm))
    | 0x15 => some (some (.lqs rd rs rn e.func e.imm))
    | 0x16 => some (some (.lb rd rs rn e.func e.imm))
    | 0x17 => some (some (.lbs rd rs rn e.func e.imm))
    | 0x18 => some (some (.sw rd rs rn e.func e.imm))
    | 0x19 => some (some (.sh rd rs rn e.func e.imm))
    | 0x1A => some (some (.sq rd rs rn e.func e.imm))
    | 0x1B => some (some (.sb rd rs rn e.func e.imm))
    | _ => none
  | 0x1E =>
    some (some (.cmpr (Register.fromNibble (M.fromU32 w).rde)
      (Register.fromNibble (M.fromU32 w).rs1)))
  | 0x1F =>
    let f := F.fromU32 w
    let r1 := Register.fromNibble f.rde
    some (match f.func with
      | .X0 => some (.cmpi r1 false f.imm)
      | .X1 => some (.cmpi r1 true f.imm)
      | _ => none)
  | 0x20 | 0x21 | 0x22 | 0x23 | 0x24 | 0x25 | 0x26 | 0x27
  | 0x28 | 0x29 | 0x2A | 0x2B | 0x2C | 0x2D | 0x2E | 0x2F
  | 0x30 | 0x31 | 0x32 | 0x33 | 0x34 | 0x35 | 0x36 | 0x37
  | 0x38 | 0x39 | 0x3A | 0x3B | 0x3C | 0x3D | 0x3E | 0x3F =>
    if instrOpcode w % 2 = 0 then
      let r := R.fromU32 w
      let rd := Register.fromNibble r.rde
      let r1 := Register.fromNibble r.rs1
      let r2 := Register.fromNibble r.rs2
      match instrOpcode w with
      | 0x20 => some (some (.addr rd r1 r2))
      | 0x22 => some (some (.subr rd r1 r2))
      | 0x24 => some (some (.imulr rd r1 r2))
      | 0x26 => some (some (.idivr rd r1 r2))
      | 0x28 => some (some (.umulr rd r1 r2))
      | 0x2A => some (some (.udivr rd r1 r2))
      | 0x2C => some (some (.remr rd r1 r2))
      | 0x2E => some (some (.modr rd r1 r2))
      | 0x30 => some (some (.andr rd r1 r2))
      | 0x32 => some (some (.orr rd r1 r2))
      | 0x34 => some (some (.norr rd r1 r2))
      | 0x36 => some (some (.xorr rd r1 r2))
      | 0x38 => some (some (.shlr rd r1 r2))
      | 0x3A => some (some (.asrr rd r1 r2))
      | 0x3C => some (some (.lsrr rd r1 r2))
      | 0x3E => some (some (.bitr rd r1 r2))
      | _ => none
    else
      let m := M.fromU32 w
      let rd := Register.fromNibble m.rde
      let r1 := Register.fromNibble m.rs1
      match instrOpcode w with
      | 0x21 => some (some (.addi rd r1 m.imm))
      | 0x23 => some (some (.subi rd r1 m.imm))
      | 0x25 => some (some (.imuli rd r1 m.imm))
      | 0x27 => some (some (.idivi rd r1 m.imm))
      | 0x29 => some (some (.umuli rd r1 m.imm))
      | 0x2B => some (some (.udivi rd r1 m.imm))
      | 0x2D => some (some (.remi rd r1 m.imm))
      | 0x2F => some (some (.modi rd r1 m.imm))
      | 0x31 => some (some (.andi rd r1 m.imm))
      | 0x33 => some (some (.ori rd r1 m.imm))
      | 0x35 => some (some (.nori rd r1 m.imm))
      | 0x37 => some (some (.xori rd r1 m.imm))
      | 0x39 => some (some (.shli rd r1 m.imm))
      | 0x3B => some (some (.asri rd r1 m.imm))
      | 0x3D => some (some (.lsri rd r1 m.imm))
      | 0x3F => some (some (.biti rd r1 m.imm))
      | _ => none
  | 0x40 | 0x41 | 0x42 | 0x43 | 0x44 | 0x45 | 0x46 | 0x47
  | 0x48 | 0x49 | 0x4A | 0x4B | 0x4C | 0x4D | 0x4E | 0x4F =>
    let e := E.fromU32 w
    let rd := Register.fromNibble e.rde
    let r1 := Register.fromNibble e.rs1
    let r2 := Register.fromNibble e.rs2
    let p := FloatPrecision.tryFromNibble e.func
    let pp := FloatCastType.tryFromNibble e.func
    match instrOpcode w with
    | 0x40 => some (p.map fun p => .fcmp r1 r2 p)
    | 0x41 => some (p.map fun p => .fto rd r1 p)
    | 0x42 => some (p.map fun p => .ffrom rd r1 p)
    | 0x43 => some (p.map fun p => .fneg rd r1 p)
    | 0x44 => some (p.map fun p => .fabs rd r1 p)
    | 0x45 => some (p.map fun p => .fadd rd r1 r2 p)
    | 0x46 => some (p.map fun p => .fsub rd r1 r2 p)
    | 0x47 => some (p.map fun p => .fmul rd r1 r2 p)
    | 0x48 => some (p.map fun p => .fdiv rd r1 r2 p)
    | 0x49 => some (p.map fun p => .fma rd r1 r2 p)
    | 0x4A => some (p.map fun p => .fsqrt rd r1 p)
    | 0x4B => some (p.map fun p => .fmin rd r1 r2 p)
    | 0x4C => some (p.map fun p => .fmax rd r1 r2 p)
    | 0x4D => some (p.map fun p => .fsat rd r1 p)
    | 0x4E => some (pp.map fun c => .fcnv rd r1 c)
    | 0x4F => some (p.map fun p => .fnan rd r1 p)
    | _ => none
  | _ => some none

/-- `InstructionSet::try_from_instruction` proper: collapse the panic
layer (theorem `C9...` below shows it is never hit). -/
def InstructionSet.tryFromInstruction (w : Nat) : Option InstructionSet :=
  (InstructionSet.tryFromInstruction? w).getD none

/-- Modelled from the spec: `InstructionSet::to_instruction` is called by
the crate (src/main.rs) but its definition is not among the provided
sources; per spec §4.5 the encoder selects the variant's format, packs
its fields, and prepends the fixed opcode associated with the variant in
`try_from_instruction`'s dispatch table.  Fields the variant does not
carry are packed as zero; the cast variant packs its `to` precision in
the low two bits of the func nibble and its `from` precision in bits
2..3, matching the decoder's bit split. -/
def InstructionSet.toInstruction : InstructionSet → Nat
  | .int i => F.toU32 ⟨i.val, .X0, .X0⟩ 0x01
  | .iret => F.toU32 ⟨0, .X1, .X0⟩ 0x01
  | .ires => F.toU32 ⟨0, .X2, .X0⟩ 0x01
  | .usr rd => F.toU32 ⟨0, .X3, rd.toNibble⟩ 0x01
  | .outr rd rs => M.toU32 ⟨0, rs.toNibble, rd.toNibble⟩ 0x02
  | .outi p rs => M.toU32 ⟨p.val, rs.toNibble, .X0⟩ 0x03
  | .inr rd rs => M.toU32 ⟨0, rs.toNibble, rd.toNibble⟩ 0x04
  | .ini rd p => M.toU32 ⟨p.val, .X0, rd.toNibble⟩ 0x05
  | .jal rs imm16 => M.toU32 ⟨imm16, rs.toNibble, .X0⟩ 0x06
  | .jalr rd rs imm16 => M.toU32 ⟨imm16, rs.toNibble, rd.toNibble⟩ 0x07
  | .ret => M.toU32 ⟨0, .X0, .X0⟩ 0x08
  | .retr rs => M.toU32 ⟨0, rs.toNibble, .X0⟩ 0x09
  | .branch cc imm20 => B.toU32 ⟨imm20, cc.toNibble⟩ 0x0A
  | .push rs => M.toU32 ⟨0, rs.toNibble, .X0⟩ 0x0B
  | .pop rd => M.toU32 ⟨0, .X0, rd.toNibble⟩ 0x0C
  | .enter => M.toU32 ⟨0, .X0, .X0⟩ 0x0D
  | .leave => M.toU32 ⟨0, .X0, .X0⟩ 0x0E
  | .li rd func imm => F.toU32 ⟨imm, func.toNibble, rd.toNibble⟩ 0x10
  | .lw rd rs rn shamt off => E.toU32 ⟨off, shamt, rn.toNibble, rs.toNibble, rd.toNibble⟩ 0x11
  | .lh rd rs rn shamt off => E.toU32 ⟨off, shamt, rn.toNibble, rs.toNibble, rd.toNibble⟩ 0x12
  | .lhs rd rs rn shamt off => E.toU32 ⟨off, shamt, rn.toNibble, rs.toNibble, rd.toNibble⟩ 0x13
  | .lq rd rs rn shamt off => E.toU32 ⟨off, shamt, rn.toNibble, rs.toNibble, rd.toNibble⟩ 0x14
  | .lqs rd rs rn shamt off => E.toU32 ⟨off, shamt, rn.toNibble, rs.toNibble, rd.toNibble⟩ 0x15
  | .lb rd rs rn shamt off => E.toU32 ⟨off, shamt, rn.toNibble, rs.toNibble, rd.toNibble⟩ 0x16
  | .lbs rd rs rn shamt off => E.toU32 ⟨off, shamt, rn.toNibble, rs.toNibble, rd.toNibble⟩ 0x17
  | .sw rd rs rn shamt off => E.toU32 ⟨off, shamt, rn.toNibble, rs.toNibble, rd.toNibble⟩ 0x18
  | .sh rd rs rn shamt off => E.toU32 ⟨off, shamt, rn.toNibble, rs.toNibble, rd.toNibble⟩ 0x19
  | .sq rd rs rn shamt off => E.toU32 ⟨off, shamt, rn.toNibble, rs.toNibble, rd.toNibble⟩ 0x1A
  | .sb rd rs rn shamt off => E.toU32 ⟨off, shamt, rn.toNibble, rs.toNibble, rd.toNibble⟩ 0x1B
  | .cmpr r1 r2 => M.toU32 ⟨0, r2.toNibble, r1.toNibble⟩ 0x1E
  | .cmpi r1 s imm => F.toU32 ⟨imm, if s then .X1 else .X0, r1.toNibble⟩ 0x1F
  | .addr rd r1 r2 => R.toU32 ⟨0, r2.toNibble, r1.toNibble, rd.toNibble⟩ 0x20
  | .subr rd r1 r2 => R.toU32 ⟨0, r2.toNibble, r1.toNibble, rd.toNibble⟩ 0x22
  | .imulr rd r1 r2 => R.toU32 ⟨0, r2.toNibble, r1.toNibble, rd.toNibble⟩ 0x24
  | .idivr rd r1 r2 => R.toU32 ⟨0, r2.toNibble, r1.toNibble, rd.toNibble⟩ 0x26
  | .umulr rd r1 r2 => R.toU32 ⟨0, r2.toNibble, r1.toNibble, rd.toNibble⟩ 0x28
  | .udivr rd r1 r2 => R.toU32 ⟨0, r2.toNibble, r1.toNibble, rd.toNibble⟩ 0x2A
  | .remr rd r1 r2 => R.toU32 ⟨0, r2.toNibble, r1.toNibble, rd.toNibble⟩ 0x2C
  | .modr rd r1 r2 => R.toU32 ⟨0, r2.toNibble, r1.toNibble, rd.toNibble⟩ 0x2E
  | .andr rd r1 r2 => R.toU32 ⟨0, r2.toNibble, r1.toNibble, rd.toNibble⟩ 0x30
  | .orr rd r1 r2 => R.toU32 ⟨0, r2.toNibble, r1.toNibble, rd.toNibble⟩ 0x32
  | .norr rd r1 r2 => R.toU32 ⟨0, r2.toNibble, r1.toNibble, rd.toNibble⟩ 0x34
  | .xorr rd r1 r2 => R.toU32 ⟨0, r2.toNibble, r1.toNibble, rd.toNibble⟩ 0x36
  | .shlr rd r1 r2 => R.toU32 ⟨0, r2.toNibble, r1.toNibble, rd.toNibble⟩ 0x38
  | .asrr rd r1 r2 => R.toU32 ⟨0, r2.toNibble, r1.toNibble, rd.toNibble⟩ 0x3A
  | .lsrr rd r1 r2 => R.toU32 ⟨0, r2.toNibble, r1.toNibble, rd.toNibble⟩ 0x3C
  | .bitr rd r1 r2 => R.toU32 ⟨0, r2.toNibble, r1.toNibble, rd.toNibble⟩ 0x3E
  | .addi rd r1 imm16 => M.toU32 ⟨imm16, r1.toNibble, rd.toNibble⟩ 0x21
  | .subi rd r1 imm16 => M.toU32 ⟨imm16, r1.toNibble, rd.toNibble⟩ 0x23
  | .imuli rd r1 imm16 => M.toU32 ⟨imm16, r1.toNibble, rd.toNibble⟩ 0x25
  | .idivi rd r1 imm16 => M.toU32 ⟨imm16, r1.toNibble, rd.toNibble⟩ 0x27
  | .umuli rd r1 imm16 => M.toU32 ⟨imm16, r1.toNibble, rd.toNibble⟩ 0x29
  | .udivi rd r1 imm16 => M.toU32 ⟨imm16, r1.toNibble, rd.toNibble⟩ 0x2B
  | .remi rd r1 imm16 => M.toU32 ⟨imm16, r1.toNibble, rd.toNibble⟩ 0x2D
  | .modi rd r1 imm16 => M.toU32 ⟨imm16, r1.toNibble, rd.toNibble⟩ 0x2F
  | .andi rd r1 imm16 => M.toU32 ⟨imm16, r1.toNibble, rd.toNibble⟩ 0x31
  | .ori rd r1 imm16 => M.toU32 ⟨imm16, r1.toNibble, rd.toNibble⟩ 0x33
  | .nori rd r1 imm16 => M.toU32 ⟨imm16, r1.toNibble, rd.toNibble⟩ 0x35
  | .xori rd r1 imm16 => M.toU32 ⟨imm16, r1.toNibble, rd.toNibble⟩ 0x37
  | .shli rd r1 imm16 => M.toU32 ⟨imm16, r1.toNibble, rd.toNibble⟩ 0x39
  | .asri rd r1 imm16 => M.toU32 ⟨imm16, r1.toNibble, rd.toNibble⟩ 0x3B
  | .lsri rd r1 imm16 => M.toU32 ⟨imm16, r1.toNibble, rd.toNibble⟩ 0x3D
  | .biti rd r1 imm16 => M.toU32 ⟨imm16, r1.toNibble, rd.toNibble⟩ 0x3F
  | .fcmp r1 r2 p => E.toU32 ⟨0, Nibble.fromU8 p.code, r2.toNibble, r1.toNibble, .X0⟩ 0x40
  | .fto rd rs p => E.toU32 ⟨0, Nibble.fromU8 p.code, .X0, rs.toNibble, rd.toNibble⟩ 0x41
  | .ffrom rd rs p => E.toU32 ⟨0, Nibble.fromU8 p.code, .X0, rs.toNibble, rd.toNibble⟩ 0x42
  | .fneg rd rs p => E.toU32 ⟨0, Nibble.fromU8 p.code, .X0, rs.toNibble, rd.toNibble⟩ 0x43
  | .fabs rd rs p => E.toU32 ⟨0, Nibble.fromU8 p.code, .X0, rs.toNibble, rd.toNibble⟩ 0x44
  | .fadd rd r1 r2 p => E.toU32 ⟨0, Nibble.fromU8 p.code, r2.toNibble, r1.toNibble, rd.toNibble⟩ 0x45
  | .fsub rd r1 r2 p => E.toU32 ⟨0, Nibble.fromU8 p.code, r2.toNibble, r1.toNibble, rd.toNibble⟩ 0x46
  | .fmul rd r1 r2 p => E.toU32 ⟨0, Nibble.fromU8 p.code, r2.toNibble, r1.toNibble, rd.toNibble⟩ 0x47
  | .fdiv rd r1 r2 p => E.toU32 ⟨0, Nibble.fromU8 p.code, r2.toNibble, r1.toNibble, rd.toNibble⟩ 0x48
  | .fma rd r1 r2 p => E.toU32 ⟨0, Nibble.fromU8 p.code, r2.toNibble, r1.toNibble, rd.toNibble⟩ 0x49
  | .fsqrt rd r1 p => E.toU32 ⟨0, Nibble.fromU8 p.code, .X0, r1.toNibble, rd.toNibble⟩ 0x4A
  | .fmin rd r1 r2 p => E.toU32 ⟨0, Nibble.fromU8 p.code, r2.toNibble, r1.toNibble, rd.toNibble⟩ 0x4B
  | .fmax rd r1 r2 p => E.toU32 ⟨0, Nibble.fromU8 p.code, r2.toNibble, r1.toNibble, rd.toNibble⟩ 0x4C
  | .fsat rd r1 p => E.toU32 ⟨0, Nibble.fromU8 p.code, .X0, r1.toNibble, rd.toNibble⟩ 0x4D
  | .fcnv rd r1 c => E.toU32 ⟨0, c.toNibble, .X0, r1.toNibble, rd.toNibble⟩ 0x4E
  | .fnan rd r1 p => E.toU32 ⟨0, Nibble.fromU8 p.code, .X0, r1.toNibble, rd.toNibble⟩ 0x4F

/-- Width bounds of a variant's payload, matching the Rust field types
(`u8` interrupt numbers, `u16` ports and immediates, 20-bit branch
displacement, `u8` load/store offsets). -/
def InstructionSet.WF : InstructionSet → Prop
  | .int i => i.val < 2 ^ 8
  | .outi p _ => p.val < 2 ^ 16
  | .ini _ p => p.val < 2 ^ 16
  | .jal _ imm16 => imm16 < 2 ^ 16
  | .jalr _ _ imm16 => imm16 < 2 ^ 16
  | .branch _ imm20 => imm20 < 2 ^ 20
  | .li _ _ imm => imm < 2 ^ 16
  | .lw _ _ _ _ off => off < 2 ^ 8
  | .lh _ _ _ _ off => off < 2 ^ 8
  | .lhs _ _ _ _ off => off < 2 ^ 8
  | .lq _ _ _ _ off => off < 2 ^ 8
  | .lqs _ _ _ _ off => off < 2 ^ 8
  | .lb _ _ _ _ off => off < 2 ^ 8
  | .lbs _ _ _ _ off => off < 2 ^ 8
  | .sw _ _ _ _ off => off < 2 ^ 8
  | .sh _ _ _ _ off => off < 2 ^ 8
  | .sq _ _ _ _ off => off < 2 ^ 8
  | .sb _ _ _ _ off => off < 2 ^ 8
  | .cmpi _ _ imm => imm < 2 ^ 16
  | .addi _ _ imm16 => imm16 < 2 ^ 16
  | .subi _ _ imm16 => imm16 < 2 ^ 16
  | .imuli _ _ imm16 => imm16 < 2 ^ 16
  | .idivi _ _ imm16 => imm16 < 2 ^ 16
  | .umuli _ _ imm16 => imm16 < 2 ^ 16
  | .udivi _ _ imm16 => imm16 < 2 ^ 16
  | .remi _ _ imm16 => imm16 < 2 ^ 16
  | .modi _ _ imm16 => imm16 < 2 ^ 16
  | .andi _ _ imm16 => imm16 < 2 ^ 16
  | .ori _ _ imm16 => imm16 < 2 ^ 16
  | .nori _ _ imm16 => imm16 < 2 ^ 16
  | .xori _ _ imm16 => imm16 < 2 ^ 16
  | .shli _ _ imm16 => imm16 < 2 ^ 16
  | .asri _ _ imm16 => imm16 < 2 ^ 16
  | .lsri _ _ imm16 => imm16 < 2 ^ 16
  | .biti _ _ imm16 => imm16 < 2 ^ 16
  | _ => True

/-- A variant survives the decoder's cast-nibble bit split unless it is a
float conversion whose destination precision is `F64` (whose `to` code,
`2`, has its information in bit 1, which the decoder's `& 0x11` mask
discards). -/
def InstructionSet.castDstOk : InstructionSet → Prop
  | .fcnv _ _ c => c.toP ≠ .F64
  | _ => True

/-- C1: for each of the five instruction formats E, R, M, F, B and every
32-bit word `w`, decoding `w` into the format's field record and
re-encoding it with `w`'s opcode byte reproduces `w` exactly. -/
theorem C1_format_decode_encode_roundtrip (w : Nat) (hw : w < 2 ^ 32) :
    E.toU32 (E.fromU32 w) (instrOpcode w) = w
    ∧ R.toU32 (R.fromU32 w) (instrOpcode w) = w
    ∧ M.toU32 (M.fromU32 w) (instrOpcode w) = w
    ∧ F.toU32 (F.fromU32 w) (instrOpcode w) = w
    ∧ B.toU32 (B.fromU32 w) (instrOpcode w) = w := by
  refine ⟨?_, ?_, ?_, ?_, ?_⟩
  · unfold E.toU32 E.fromU32 instrOpcode
    simp only [Nibble.compose_fromU8_fromU8Upper]
    omega
  · unfold R.toU32 R.fromU32 instrOpcode
    simp only [Nibble.compose_eq, Nibble.toU8_fromU8, Nibble.toU8_fromU8Upper]
    omega
  · unfold M.toU32 M.fromU32 instrOpcode
    simp only [Nibble.compose_fromU8_fromU8Upper]
    omega
  · unfold F.toU32 F.fromU32 instrOpcode
    simp only [Nibble.compose_fromU8_fromU8Upper]
    omega
  · have h1 : (B.fromU32 w).imm < 2 ^ 20 := by
      unfold B.fromU32
      simp only
      omega
    have h2 : instrOpcode w < 256 := by
      unfold instrOpcode
      omega
    rw [B.toU32_eq _ _ h1 h2]
    unfold B.fromU32 instrOpcode
    simp only [Nibble.toU8_fromU8Upper]
    omega

theorem C1_format_decode_encode_roundtrip_witness :
    E.toU32 (E.fromU32 0x12345678) (instrOpcode 0x12345678) = 0x12345678
    ∧ R.toU32 (R.fromU32 0x12345678) (instrOpcode 0x12345678) = 0x12345678
    ∧ M.toU32 (M.fromU32 0x12345678) (instrOpcode 0x12345678) = 0x12345678
    ∧ F.toU32 (F.fromU32 0x12345678) (instrOpcode 0x12345678) = 0x12345678
    ∧ B.toU32 (B.fromU32 0x12345678) (instrOpcode 0x12345678) = 0x12345678 :=
  C1_format_decode_encode_roundtrip 0x12345678 (by norm_num)

theorem Nibble.fromU8_eq_of_mod_eq {v u : Nat} (h : v % 16 = u % 16) :
    Nibble.fromU8 v = Nibble.fromU8 u := by
  unfold Nibble.fromU8 Nibble.fromU8?
  rw [h]

/-- C5 counterexample: `B::to_u32` does not mask its immediate to the
declared 20 bits: packing a `B` record with `imm = 2 ^ 20` is not the
same as packing the masked record, and the immediate's excess bit lands
in the func nibble's position (bits 28..31) of the produced word. -/
theorem C5_counterexample :
    B.toU32 ⟨2 ^ 20, .X0⟩ 0 ≠ B.toU32 ⟨2 ^ 20 % 2 ^ 20, .X0⟩ 0
    ∧ B.toU32 ⟨2 ^ 20, .X0⟩ 0 / 2 ^ 28 % 2 ^ 4 = 1 := by
  decide

/-- C5 amended: `R::to_u32` does mask its 12-bit immediate to width
(through `Nibble::from_u8` on the immediate's high byte); formats E, M
and F give their fields exactly the declared widths (`u8`/`u16`/nibble
types), so no out-of-width record is constructible for them in the
source; `B::to_u32` does not mask, and packs without overlap only when
its immediate is within 20 bits. -/
theorem C5_encode_masking_amended :
    (∀ (imm : Nat) (rs2 rs1 rde : Nibble) (opc : Nat), imm < 2 ^ 16 →
      R.toU32 ⟨imm, rs2, rs1, rde⟩ opc = R.toU32 ⟨imm % 2 ^ 12, rs2, rs1, rde⟩ opc)
    ∧ (∀ (b : B) (opc : Nat), b.imm < 2 ^ 20 → opc < 256 →
      instrOpcode (B.toU32 b opc) = opc
      ∧ B.toU32 b opc / 2 ^ 8 % 2 ^ 20 = b.imm
      ∧ B.toU32 b opc / 2 ^ 28 % 2 ^ 4 = b.func.toU8) := by
  constructor
  · intro imm rs2 rs1 rde opc himm
    unfold R.toU32
    simp only
    have he : Nibble.fromU8 (imm / 256) = Nibble.fromU8 (imm % 2 ^ 12 / 256) :=
      Nibble.fromU8_eq_of_mod_eq (by omega)
    rw [he]
    have : imm % 256 = imm % 2 ^ 12 % 256 := by omega
    omega
  · intro b opc hi ho
    have hfu := b.func.toU8_lt
    rw [B.toU32_eq b opc hi ho]
    unfold instrOpcode
    refine ⟨by omega, by omega, by omega⟩

theorem C5_encode_masking_amended_witness :
    R.toU32 ⟨0xF123, .X1, .X2, .X3⟩ 0x20 = R.toU32 ⟨0xF123 % 2 ^ 12, .X1, .X2, .X3⟩ 0x20
    ∧ (instrOpcode (B.toU32 ⟨0xABCDE, .X5⟩ 0x0A) = 0x0A
      ∧ B.toU32 ⟨0xABCDE, .X5⟩ 0x0A / 2 ^ 8 % 2 ^ 20 = 0xABCDE
      ∧ B.toU32 ⟨0xABCDE, .X5⟩ 0x0A / 2 ^ 28 % 2 ^ 4 = Nibble.X5.toU8) :=
  ⟨C5_encode_masking_amended.1 0xF123 .X1 .X2 .X3 0x20 (by norm_num),
   C5_encode_masking_amended.2 ⟨0xABCDE, .X5⟩ 0x0A (by norm_num) (by norm_num)⟩

/-- C6: the decoder rejects (returns `none` for) every word with opcode
byte 0xFF; every branch word (opcode 0x0A) whose condition nibble is
unassigned; and every system-control word (opcode 0x01) with func nibble
0x0 whose 16-bit interrupt immediate has a non-zero high byte. -/
theorem C6_decode_rejection :
    (∀ w, w < 2 ^ 32 → instrOpcode w = 0xFF →
      InstructionSet.tryFromInstruction w = none)
    ∧ (∀ w, w < 2 ^ 32 → instrOpcode w = 0x0A →
      BranchCond.tryFromNibble (B.fromU32 w).func = none →
      InstructionSet.tryFromInstruction w = none)
    ∧ (∀ w, w < 2 ^ 32 → instrOpcode w = 0x01 → (F.fromU32 w).func = .X0 →
      (F.fromU32 w).imm / 256 % 256 ≠ 0 →
      InstructionSet.tryFromInstruction w = none) := by
  refine ⟨?_, ?_, ?_⟩
  · intro w hw hop
    unfold InstructionSet.tryFromInstruction InstructionSet.tryFromInstruction?
    rw [hop]
    rfl
  · intro w hw hop hcc
    unfold InstructionSet.tryFromInstruction InstructionSet.tryFromInstruction?
    rw [hop]
    simp [hcc]
  · intro w hw hop hfunc himm
    unfold InstructionSet.tryFromInstruction InstructionSet.tryFromInstruction?
    rw [hop]
    simp [hfunc, Interrupt.tryFromU16, himm]

theorem C6_decode_rejection_witness :
    InstructionSet.tryFromInstruction 0x000000FF = none
    ∧ InstructionSet.tryFromInstruction 0x7000000A = none
    ∧ InstructionSet.tryFromInstruction 0x00010001 = none :=
  ⟨C6_decode_rejection.1 0x000000FF (by norm_num) (by decide),
   C6_decode_rejection.2.1 0x7000000A (by norm_num) (by decide) (by decide),
   C6_decode_rejection.2.2 0x00010001 (by norm_num) (by decide) (by decide) (by decide)⟩

/-- C8: for every `BIT_SIZE` in `1..64` and 64-bit value, `sign_extend`
returns the 64-bit unsigned re-encoding of the two's-complement value
represented by the low `BIT_SIZE` bits (all bits above `BIT_SIZE - 1`
become copies of bit `BIT_SIZE - 1`). -/
theorem C8_sign_extend (bs v : Nat) (h1 : 1 ≤ bs) (h2 : bs ≤ 63) (hv : v < 2 ^ 64) :
    sign_extend bs v =
      (if v / 2 ^ (bs - 1) % 2 = 1 then v % 2 ^ bs + (2 ^ 64 - 2 ^ bs) else v % 2 ^ bs) := by
  simp only [sign_extend]
  have hpow : (2 : Nat) ^ bs * 2 ^ (64 - bs) = 2 ^ 64 := by
    rw [← pow_add]
    congr 1
    omega
  have hx : v <<< (64 - bs) % 2 ^ 64 = v % 2 ^ bs * 2 ^ (64 - bs) := by
    rw [Nat.shiftLeft_eq, ← hpow, Nat.mul_mod_mul_right]
  have hsplit : (2 : Nat) ^ bs = 2 ^ (bs - 1) * 2 := by
    rw [← pow_succ]
    congr 1
    omega
  have hb : v % 2 ^ bs / 2 ^ (bs - 1) = v / 2 ^ (bs - 1) % 2 := by
    rw [hsplit, Nat.mod_mul_right_div_self]
  have hlow_lt : v % 2 ^ bs < 2 ^ bs := Nat.mod_lt _ (by positivity)
  have hps : (2 : Nat) ^ (bs - 1) * 2 ^ (64 - bs) = 2 ^ 63 := by
    rw [← pow_add]
    congr 1
    omega
  have hb63 : (2 : Nat) ^ bs ≤ 2 ^ 63 := Nat.pow_le_pow_right (by omega) h2
  have hspos : (0 : Int) < 2 ^ (64 - bs) := by positivity
  have hcastb : ((2 : Int) ^ bs) = ((2 ^ bs : Nat) : Int) := by push_cast; ring
  rw [hx]
  set L : Nat := v % 2 ^ bs with hL
  have hc1 : ((L * 2 ^ (64 - bs) : Nat) : Int) = (L : Int) * 2 ^ (64 - bs) := by
    push_cast
    ring
  have hpi : ((2 : Int) ^ bs) * 2 ^ (64 - bs) = 2 ^ 64 := by exact_mod_cast hpow
  by_cases hsign : v / 2 ^ (bs - 1) % 2 = 1
  · rw [if_pos hsign]
    have hge : 2 ^ (bs - 1) ≤ L := by
      rcases Nat.lt_or_ge L (2 ^ (bs - 1)) with hc | hc
      · exfalso
        have hz : L / 2 ^ (bs - 1) = 0 := Nat.div_eq_of_lt hc
        omega
      · exact hc
    have hxge : 2 ^ 63 ≤ L * 2 ^ (64 - bs) := by
      calc (2 : Nat) ^ 63 = 2 ^ (bs - 1) * 2 ^ (64 - bs) := hps.symm
        _ ≤ L * 2 ^ (64 - bs) := Nat.mul_le_mul_right _ hge
    unfold toI64
    rw [if_neg (by omega)]
    have hfac : ((L * 2 ^ (64 - bs) : Nat) : Int) - 2 ^ 64
        = ((L : Int) - 2 ^ bs) * 2 ^ (64 - bs) := by
      rw [hc1, sub_mul, hpi]
    rw [hfac, Int.mul_fdiv_cancel _ (by omega)]
    unfold toU64
    have hbi : ((2 : Int) ^ bs) ≤ 2 ^ 63 := by exact_mod_cast hb63
    have hlti : ((L : Nat) : Int) < 2 ^ bs := by exact_mod_cast hlow_lt
    have hsh : ((L : Int) - 2 ^ bs) % (2 ^ 64) = (L : Int) - 2 ^ bs + 2 ^ 64 := by
      have h64 : (L : Int) - 2 ^ bs + 2 ^ 64 * 1 = (L : Int) - 2 ^ bs + 2 ^ 64 := by ring
      rw [← Int.add_mul_emod_self_left ((L : Int) - 2 ^ bs) (2 ^ 64) 1, h64]
      apply Int.emod_eq_of_lt
      · have hnn : (0 : Int) ≤ (L : Int) := Int.natCast_nonneg _
        omega
      · omega
    rw [hsh]
    omega
  · rw [if_neg hsign]
    have hlt : L < 2 ^ (bs - 1) := by
      rcases Nat.lt_or_ge L (2 ^ (bs - 1)) with hc | hc
      · exact hc
      · exfalso
        have h0 : L / 2 ^ (bs - 1) = 1 := by
          have hub : L / 2 ^ (bs - 1) < 2 := by
            apply Nat.div_lt_of_lt_mul
            omega
          have hlb : 1 ≤ L / 2 ^ (bs - 1) :=
            (Nat.one_le_div_iff (by positivity)).mpr hc
          omega
        omega
    have hxlt : L * 2 ^ (64 - bs) < 2 ^ 63 := by
      calc L * 2 ^ (64 - bs) < 2 ^ (bs - 1) * 2 ^ (64 - bs) :=
            (Nat.mul_lt_mul_right (by positivity)).mpr hlt
        _ = 2 ^ 63 := hps
    unfold toI64
    rw [if_pos (by omega)]
    rw [hc1, Int.mul_fdiv_cancel _ (by omega)]
    unfold toU64
    have hlti : ((L : Nat) : Int) < 2 ^ 64 := by
      have : (L : Nat) < 2 ^ 64 := by omega
      exact_mod_cast this
    rw [Int.emod_eq_of_lt (Int.natCast_nonneg _) hlti]
    omega

theorem C8_sign_extend_witness :
    sign_extend 8 0xFF = 0xFFFFFFFFFFFFFFFF
    ∧ sign_extend 8 0x7F = 0x7F
    ∧ sign_extend 16 0x8000 = 0xFFFFFFFFFFFF8000 := by
  refine ⟨?_, ?_, ?_⟩
  · rw [C8_sign_extend 8 0xFF (by norm_num) (by norm_num) (by norm_num)]
    norm_num
  · rw [C8_sign_extend 8 0x7F (by norm_num) (by norm_num) (by norm_num)]
    norm_num
  · rw [C8_sign_extend 16 0x8000 (by norm_num) (by norm_num) (by norm_num)]
    norm_num

theorem bool_xor_decide_iff (P Q : Prop) [Decidable P] [Decidable Q] :
    ((decide P).xor (decide Q) = true) ↔ (P ↔ ¬ Q) := by
  by_cases hP : P <;> by_cases hQ : Q <;> simp [hP, hQ]

/-- C3 counterexample: at `a = 2 ^ 63` (`i64::MIN`), `b = 2 ^ 64 - 1`
(`-1`), carry-in `true`, both the primary signed addition and the signed
carry-in addition overflow, so the claim's "true iff either step
overflowed" demands `signed_overflow = true`; the code combines the two
step flags with `^` and returns `false` (correctly: the exact sum
`-2 ^ 63 - 1 + 1` is representable). -/
theorem C3_counterexample :
    (overflowingAddI64 (toI64 (2 ^ 63)) (toI64 (2 ^ 64 - 1))).2 = true
    ∧ (overflowingAddI64 (overflowingAddI64 (toI64 (2 ^ 63)) (toI64 (2 ^ 64 - 1))).1
        ((true : Bool).toNat)).2 = true
    ∧ (ops.add (2 ^ 63) (2 ^ 64 - 1) true).signed_overflow = false := by
  refine ⟨by decide, by decide, by decide⟩

/-- C3 amended: `result` is the unsigned wrapping sum (difference) with
carry, and `unsigned_overflow` is as the claim states; but
`signed_overflow` is the exclusive-or of the two per-step signed
overflow flags — equivalently, it is true iff the mathematically exact
signed sum (difference) with carry lies outside the `i64` range — not
their inclusive-or.  The two differ exactly when both steps overflow
(e.g. the counterexample above). -/
theorem C3_add_sub_flags_amended (a b : Nat) (c : Bool) (ha : a < 2 ^ 64) (hb : b < 2 ^ 64) :
    (ops.add a b c).result = (a + b + c.toNat) % 2 ^ 64
    ∧ ((ops.add a b c).unsigned_overflow = true ↔ 2 ^ 64 ≤ a + b + c.toNat)
    ∧ ((ops.add a b c).signed_overflow = true ↔
        (toI64 a + toI64 b + c.toNat < -2 ^ 63 ∨ 2 ^ 63 ≤ toI64 a + toI64 b + c.toNat))
    ∧ (ops.sub a b c).result = (a + 2 ^ 64 + 2 ^ 64 - b - c.toNat) % 2 ^ 64
    ∧ ((ops.sub a b c).unsigned_overflow = true ↔ a < b + c.toNat)
    ∧ ((ops.sub a b c).signed_overflow = true ↔
        (toI64 a - toI64 b - c.toNat < -2 ^ 63 ∨ 2 ^ 63 ≤ toI64 a - toI64 b - c.toNat)) := by
  refine ⟨?_, ?_, ?_, ?_, ?_, ?_⟩
  · simp only [ops.add, overflowingAddU64]
    cases c <;> simp only [Bool.toNat_false, Bool.toNat_true] <;> omega
  · simp only [ops.add, overflowingAddU64, Bool.or_eq_true, decide_eq_true_eq]
    cases c <;> simp only [Bool.toNat_false, Bool.toNat_true] <;> omega
  · simp only [ops.add, overflowingAddI64]
    rw [bool_xor_decide_iff]
    unfold wrapI64 toI64
    cases c <;> simp only [Bool.toNat_false, Bool.toNat_true] <;> split_ifs <;>
      push_cast <;> omega
  · simp only [ops.sub, overflowingSubU64]
    cases c <;> simp only [Bool.toNat_false, Bool.toNat_true] <;> omega
  · simp only [ops.sub, overflowingSubU64, Bool.or_eq_true, decide_eq_true_eq]
    cases c <;> simp only [Bool.toNat_false, Bool.toNat_true] <;> omega
  · simp only [ops.sub, overflowingSubI64]
    rw [bool_xor_decide_iff]
    unfold wrapI64 toI64
    cases c <;> simp only [Bool.toNat_false, Bool.toNat_true] <;> split_ifs <;>
      push_cast <;> omega

theorem C3_add_sub_flags_amended_witness :
    (ops.add 5 7 true).result = (5 + 7 + Bool.toNat true) % 2 ^ 64
    ∧ ((ops.add 5 7 true).unsigned_overflow = true ↔ 2 ^ 64 ≤ 5 + 7 + Bool.toNat true)
    ∧ ((ops.add 5 7 true).signed_overflow = true ↔
        (toI64 5 + toI64 7 + Bool.toNat true < -2 ^ 63
          ∨ 2 ^ 63 ≤ toI64 5 + toI64 7 + Bool.toNat true))
    ∧ (ops.sub 5 7 true).result = (5 + 2 ^ 64 + 2 ^ 64 - 7 - Bool.toNat true) % 2 ^ 64
    ∧ ((ops.sub 5 7 true).unsigned_overflow = true ↔ 5 < 7 + Bool.toNat true)
    ∧ ((ops.sub 5 7 true).signed_overflow = true ↔
        (toI64 5 - toI64 7 - Bool.toNat true < -2 ^ 63
          ∨ 2 ^ 63 ≤ toI64 5 - toI64 7 - Bool.toNat true)) :=
  C3_add_sub_flags_amended 5 7 true (by norm_num) (by norm_num)

theorem toI64_bounds (v : Nat) (hv : v < 2 ^ 64) : -2 ^ 63 ≤ toI64 v ∧ toI64 v < 2 ^ 63 := by
  unfold toI64
  split <;> omega

theorem Int.tmod_neg_left (a b : Int) : (-a).tmod b = -(a.tmod b) := by
  rw [Int.tmod_def, Int.tmod_def, Int.neg_tdiv]
  ring

theorem tmod_bound_sign_pos (x y : Int) (hy : 0 < y) :
    (x.tmod y).natAbs < y.natAbs ∧ (0 ≤ x → 0 ≤ x.tmod y) ∧ (x < 0 → x.tmod y ≤ 0) := by
  rcases le_or_lt 0 x with hx | hx
  · have h1 : 0 ≤ x.tmod y := Int.tmod_nonneg y hx
    have h2 : x.tmod y < y := Int.tmod_lt_of_pos x hy
    exact ⟨by omega, fun _ => h1, fun h => by omega⟩
  · have h3 : 0 ≤ (-x).tmod y := Int.tmod_nonneg y (by omega)
    have h4 : (-x).tmod y < y := Int.tmod_lt_of_pos _ hy
    have h5 : x.tmod y = -((-x).tmod y) := by
      calc x.tmod y = (-(-x)).tmod y := by rw [neg_neg]
        _ = -((-x).tmod y) := Int.tmod_neg_left _ _
    exact ⟨by omega, fun h => by omega, fun _ => by omega⟩

theorem tmod_bound_sign (x y : Int) (hy : y ≠ 0) :
    (x.tmod y).natAbs < y.natAbs ∧ (0 ≤ x → 0 ≤ x.tmod y) ∧ (x < 0 → x.tmod y ≤ 0) := by
  rcases lt_trichotomy 0 y with hy0 | hy0 | hy0
  · exact tmod_bound_sign_pos x y hy0
  · omega
  · have h := tmod_bound_sign_pos x (-y) (by omega)
    rw [Int.tmod_neg] at h
    simpa [Int.natAbs_neg] using h


theorem toI64_eq_zero_iff (v : Nat) (hv : v < 2 ^ 64) : toI64 v = 0 ↔ v = 0 := by
  unfold toI64
  split_ifs with h <;> constructor <;> (intro hh; first | exact hh.elim | omega)

theorem toI64_eq_neg_one_iff (v : Nat) (hv : v < 2 ^ 64) : toI64 v = -1 ↔ v = 2 ^ 64 - 1 := by
  unfold toI64
  split_ifs with h <;> constructor <;> (intro hh; first | exact hh.elim | omega)

theorem toI64_eq_min_iff (v : Nat) (hv : v < 2 ^ 64) : toI64 v = -2 ^ 63 ↔ v = 2 ^ 63 := by
  unfold toI64
  split_ifs with h <;> constructor <;> (intro hh; first | exact hh.elim | omega)

/-- C7: `idiv`, `rem` and `mod` return `none` exactly on a zero divisor
or on the signed-overflow pair (`i64::MIN`, `-1`); `udiv` returns `none`
exactly on a zero divisor; a defined `rem` is the truncating remainder
(magnitude below the divisor's, sign following the dividend); a defined
`mod` is the Euclidean remainder (non-negative, below the divisor's
magnitude); and `rem(-7, 3) = -1` while `mod(-7, 3) = 2`. -/
theorem C7_division_ops (a b : Nat) (ha : a < 2 ^ 64) (hb : b < 2 ^ 64) :
    (ops.idiv a b = none ↔ (b = 0 ∨ (a = 2 ^ 63 ∧ b = 2 ^ 64 - 1)))
    ∧ (ops.rem a b = none ↔ (b = 0 ∨ (a = 2 ^ 63 ∧ b = 2 ^ 64 - 1)))
    ∧ (ops.mod a b = none ↔ (b = 0 ∨ (a = 2 ^ 63 ∧ b = 2 ^ 64 - 1)))
    ∧ (ops.udiv a b = none ↔ b = 0)
    ∧ (∀ r, ops.rem a b = some r → ∃ q ri, r = toU64 ri
        ∧ toI64 a = toI64 b * q + ri
        ∧ ri.natAbs < (toI64 b).natAbs
        ∧ (0 ≤ toI64 a → 0 ≤ ri) ∧ (toI64 a < 0 → ri ≤ 0))
    ∧ (∀ r, ops.mod a b = some r → r < 2 ^ 63 ∧ r < (toI64 b).natAbs
        ∧ ∃ q, toI64 a = toI64 b * q + r)
    ∧ ops.rem (toU64 (-7)) 3 = some (toU64 (-1))
    ∧ ops.mod (toU64 (-7)) 3 = some 2 := by
  have hPQ : (toI64 b = 0 ∨ (toI64 a = -2 ^ 63 ∧ toI64 b = -1))
      ↔ (b = 0 ∨ (a = 2 ^ 63 ∧ b = 2 ^ 64 - 1)) := by
    rw [toI64_eq_zero_iff b hb, toI64_eq_neg_one_iff b hb, toI64_eq_min_iff a ha]
  refine ⟨?_, ?_, ?_, ?_, ?_, ?_, by decide, by decide⟩
  · have h : ops.idiv a b = none ↔ (toI64 b = 0 ∨ (toI64 a = -2 ^ 63 ∧ toI64 b = -1)) := by
      unfold ops.idiv checkedDivI64
      by_cases h : (toI64 b = 0 ∨ (toI64 a = -2 ^ 63 ∧ toI64 b = -1))
      · rw [if_pos h]
        exact iff_of_true rfl h
      · rw [if_neg h]
        exact iff_of_false (by simp) h
    rw [h, hPQ]
  · have h : ops.rem a b = none ↔ (toI64 b = 0 ∨ (toI64 a = -2 ^ 63 ∧ toI64 b = -1)) := by
      unfold ops.rem checkedRemI64
      by_cases h : (toI64 b = 0 ∨ (toI64 a = -2 ^ 63 ∧ toI64 b = -1))
      · rw [if_pos h]
        exact iff_of_true rfl h
      · rw [if_neg h]
        exact iff_of_false (by simp) h
    rw [h, hPQ]
  · have h : ops.mod a b = none ↔ (toI64 b = 0 ∨ (toI64 a = -2 ^ 63 ∧ toI64 b = -1)) := by
      unfold ops.mod checkedRemEuclidI64
      by_cases h : (toI64 b = 0 ∨ (toI64 a = -2 ^ 63 ∧ toI64 b = -1))
      · rw [if_pos h]
        exact iff_of_true rfl h
      · rw [if_neg h]
        exact iff_of_false (by simp) h
    rw [h, hPQ]
  · unfold ops.udiv
    by_cases h : b = 0 <;> simp [h]
  · intro r hr
    unfold ops.rem checkedRemI64 at hr
    by_cases hcond : (toI64 b = 0 ∨ (toI64 a = -2 ^ 63 ∧ toI64 b = -1))
    · rw [if_pos hcond] at hr
      simp at hr
    · rw [if_neg hcond] at hr
      have hr2 : toU64 ((toI64 a).tmod (toI64 b)) = r := by simpa using hr
      have hy : toI64 b ≠ 0 := fun h0 => hcond (Or.inl h0)
      obtain ⟨habs, hpos, hneg⟩ := tmod_bound_sign (toI64 a) (toI64 b) hy
      exact ⟨(toI64 a).tdiv (toI64 b), (toI64 a).tmod (toI64 b), hr2.symm,
        (Int.tdiv_add_tmod _ _).symm, habs, hpos, hneg⟩
  · intro r hr
    unfold ops.mod checkedRemEuclidI64 at hr
    by_cases hcond : (toI64 b = 0 ∨ (toI64 a = -2 ^ 63 ∧ toI64 b = -1))
    · rw [if_pos hcond] at hr
      simp at hr
    · rw [if_neg hcond] at hr
      have hr' : toU64 (toI64 a % toI64 b) = r := by simpa using hr
      have hy : toI64 b ≠ 0 := fun h0 => hcond (Or.inl h0)
      have hnn : 0 ≤ toI64 a % toI64 b := Int.emod_nonneg _ hy
      have habs : toI64 a % toI64 b < ((toI64 b).natAbs : Int) := by
        rcases lt_trichotomy 0 (toI64 b) with hy0 | hy0 | hy0
        · have h2 := Int.emod_lt_of_pos (toI64 a) hy0
          omega
        · omega
        · have he : toI64 a % toI64 b = toI64 a % (-(toI64 b)) := by
            rw [Int.emod_neg]
          have h2 := Int.emod_lt_of_pos (toI64 a) (b := -(toI64 b)) (by omega)
          omega
      have hb63 : (toI64 b).natAbs ≤ 2 ^ 63 := by
        have hbb := toI64_bounds b hb
        omega
      have hsm : toI64 a % toI64 b % 2 ^ 64 = toI64 a % toI64 b :=
        Int.emod_eq_of_lt hnn (by omega)
      have hrv : (r : Int) = toI64 a % toI64 b := by
        rw [← hr']
        unfold toU64
        rw [hsm]
        omega
      refine ⟨by omega, by omega, toI64 a / toI64 b, ?_⟩
      have hid := Int.ediv_add_emod (toI64 a) (toI64 b)
      rw [hrv]
      omega

theorem C7_division_ops_witness :
    (ops.idiv 7 0 = none ↔ ((0 : Nat) = 0 ∨ ((7 : Nat) = 2 ^ 63 ∧ (0 : Nat) = 2 ^ 64 - 1)))
    ∧ (ops.rem 7 0 = none ↔ ((0 : Nat) = 0 ∨ ((7 : Nat) = 2 ^ 63 ∧ (0 : Nat) = 2 ^ 64 - 1)))
    ∧ (ops.mod 7 0 = none ↔ ((0 : Nat) = 0 ∨ ((7 : Nat) = 2 ^ 63 ∧ (0 : Nat) = 2 ^ 64 - 1)))
    ∧ (ops.udiv 7 0 = none ↔ (0 : Nat) = 0)
    ∧ (∀ r, ops.rem 7 0 = some r → ∃ q ri, r = toU64 ri
        ∧ toI64 7 = toI64 0 * q + ri
        ∧ ri.natAbs < (toI64 0).natAbs
        ∧ (0 ≤ toI64 7 → 0 ≤ ri) ∧ (toI64 7 < 0 → ri ≤ 0))
    ∧ (∀ r, ops.mod 7 0 = some r → r < 2 ^ 63 ∧ r < (toI64 0).natAbs
        ∧ ∃ q, toI64 7 = toI64 0 * q + r)
    ∧ ops.rem (toU64 (-7)) 3 = some (toU64 (-1))
    ∧ ops.mod (toU64 (-7)) 3 = some 2 :=
  C7_division_ops 7 0 (by norm_num) (by norm_num)

/-- C4 (code bug): the boolean-slice accessor violates read-after-write.
Writing `false` at index 0 of the `u8` container `0b10` leaves the
container unchanged (the write itself is correct and bit-isolated), but
reading index 0 back returns `true`, because `access_to` computes
`(to >> INDEX) != 0` without masking to the single selected bit — it
answers "is any bit at position ≥ INDEX set" instead of returning bit
`INDEX`. -/
theorem C4_bool_slice_read_after_write_bug :
    boolWriteToU8 0 2 false = 2 ∧ boolAccessToU8 0 (boolWriteToU8 0 2 false) = true := by
  decide

/-- C10: `FloatCastType::try_from_nibble` succeeds exactly on nibbles
`≤ 0xB`; masking a 4-bit value with `0x11` equals masking with `0x01`,
so the `to` precision is decided by bit 0 alone — `F16` on even nibbles,
`F32` on odd ones, never `F64` (hence the decoder can never produce a
float conversion with a double destination, and `FloatCastType::cast`
never takes a `from != to` branch into an `F64` destination on a decoded
cast). -/
theorem C10_float_cast_nibble :
    (∀ v : Nibble, (FloatCastType.tryFromNibble v).isSome ↔ v.toU8 ≤ 0xB)
    ∧ (∀ v : Nibble, v.toU8 &&& 0x11 = v.toU8 &&& 0x01)
    ∧ (∀ (v : Nibble) (c : FloatCastType), FloatCastType.tryFromNibble v = some c →
        (c.toP = if v.toU8 % 2 = 0 then FloatPrecision.F16 else FloatPrecision.F32)
        ∧ c.toP ≠ FloatPrecision.F64) := by
  refine ⟨by decide, by decide, by decide⟩

theorem C10_float_cast_nibble_witness :
    ((⟨.F16, .F16⟩ : FloatCastType).toP
        = if Nibble.X2.toU8 % 2 = 0 then FloatPrecision.F16 else FloatPrecision.F32)
    ∧ (⟨.F16, .F16⟩ : FloatCastType).toP ≠ FloatPrecision.F64 :=
  C10_float_cast_nibble.2.2 .X2 ⟨.F16, .F16⟩ (by decide)

/-- C9: no `unreachable!()` arm is live.  `Nibble::from_u8` and
`Nibble::from_u8_upper` reach an assigned arm for every input byte, and
the opcode dispatch of `try_from_instruction` never reaches a dead inner
arm for any 32-bit word — the panic layer of the embedding
(`tryFromInstruction?`) is `some` everywhere, so decode (and with it
each format's total `from_u32`/`to_u32`) returns a value without
panicking on every input in its documented domain. -/
theorem C9_no_panics :
    (∀ v, v < 256 → (Nibble.fromU8? v).isSome ∧ (Nibble.fromU8Upper? v).isSome)
    ∧ (∀ w, w < 2 ^ 32 → (InstructionSet.tryFromInstruction? w).isSome) := by
  constructor
  · intro v hv
    constructor
    · have h : v % 16 < 16 := by omega
      unfold Nibble.fromU8?
      split <;> simp_all <;> omega
    · have h : v % 256 / 16 < 16 := by omega
      unfold Nibble.fromU8Upper?
      split <;> simp_all <;> omega
  · intro w hw
    unfold InstructionSet.tryFromInstruction?
    obtain ⟨op, hop⟩ : ∃ op, instrOpcode w = op := ⟨_, rfl⟩
    have hlt : op < 256 := by
      unfold instrOpcode at hop
      omega
    rw [hop]
    interval_cases op <;> rfl

theorem C9_no_panics_witness :
    ((Nibble.fromU8? 77).isSome ∧ (Nibble.fromU8Upper? 77).isSome)
    ∧ (InstructionSet.tryFromInstruction? 0x12345678).isSome :=
  ⟨C9_no_panics.1 77 (by norm_num), C9_no_panics.2 0x12345678 (by norm_num)⟩

theorem FloatCastType_tryFromNibble_toNibble (c : FloatCastType) (h : c.toP ≠ .F64) :
    FloatCastType.tryFromNibble c.toNibble = some c := by
  obtain ⟨t, f⟩ := c
  simp only at h
  cases t <;> cases f <;> first | rfl | exact absurd rfl h

theorem Interrupt.tryFromU16_small (i : Interrupt) (h : i.val < 2 ^ 8) :
    Interrupt.tryFromU16 i.val = some i := by
  unfold Interrupt.tryFromU16
  rw [if_pos (by omega)]
  have hm : i.val % 256 = i.val := by omega
  rw [hm]

set_option maxHeartbeats 1000000 in
/-- C2 counterexample: a float conversion whose destination precision is
`F64` does not survive the round trip.  The encoder packs the `to`
precision's code (2) in the low bits of the cast nibble, but the
decoder's `& 0x11` mask reads only bit 0 of it, so the decoded variant
comes back with destination `F16`. -/
theorem C2_counterexample :
    InstructionSet.tryFromInstruction
        (InstructionSet.toInstruction (.fcnv .Rz .Rz ⟨.F64, .F16⟩))
      ≠ some (.fcnv .Rz .Rz ⟨.F64, .F16⟩) := by
  have hev : InstructionSet.tryFromInstruction
      (InstructionSet.toInstruction (.fcnv .Rz .Rz ⟨.F64, .F16⟩))
      = some (.fcnv .Rz .Rz ⟨.F16, .F16⟩) := rfl
  rw [hev]
  simp

set_option maxHeartbeats 4000000 in
/-- C2 amended: for every constructible variant whose payload fields are
within their declared widths and which is not a float conversion with
destination precision `F64`, encoding (selecting the variant's format,
packing its fields, prepending its fixed opcode) and then decoding with
`try_from_instruction` returns exactly the original variant. -/
theorem C2_decode_encode_roundtrip_amended (v : InstructionSet) (hwf : v.WF)
    (hok : v.castDstOk) :
    InstructionSet.tryFromInstruction v.toInstruction = some v := by
  cases v
  case int i =>
    simp only [InstructionSet.WF] at hwf
    have hm : i.val % 65536 = i.val := by omega
    simp [InstructionSet.toInstruction, InstructionSet.tryFromInstruction,
      InstructionSet.tryFromInstruction?, F_opcode_toU32, F_fromU32_toU32_mk, hm,
      Interrupt.tryFromU16_small i hwf, Register.fromNibble_toNibble]
  case branch cc imm =>
    simp only [InstructionSet.WF] at hwf
    simp [InstructionSet.toInstruction, InstructionSet.tryFromInstruction,
      InstructionSet.tryFromInstruction?,
      B_opcode_toU32 ⟨imm, cc.toNibble⟩ 0x0A hwf (by norm_num),
      B_fromU32_toU32 ⟨imm, cc.toNibble⟩ 0x0A hwf (by norm_num),
      BranchCond_tryFromNibble_toNibble]
  case cmpi r1 s imm =>
    simp only [InstructionSet.WF] at hwf
    cases s <;>
      simp [InstructionSet.toInstruction, InstructionSet.tryFromInstruction,
        InstructionSet.tryFromInstruction?, F_opcode_toU32, F_fromU32_toU32_mk,
        Register.fromNibble_toNibble] <;> omega
  case outi imm16 rs =>
    simp only [InstructionSet.WF] at hwf
    have hm : imm16.val % 65536 = imm16.val := by omega
    simp [InstructionSet.toInstruction, InstructionSet.tryFromInstruction,
      InstructionSet.tryFromInstruction?, M_opcode_toU32, M_fromU32_toU32_mk, hm,
      Register.fromNibble_toNibble]
  case ini rd imm16 =>
    simp only [InstructionSet.WF] at hwf
    have hm : imm16.val % 65536 = imm16.val := by omega
    simp [InstructionSet.toInstruction, InstructionSet.tryFromInstruction,
      InstructionSet.tryFromInstruction?, M_opcode_toU32, M_fromU32_toU32_mk, hm,
      Register.fromNibble_toNibble]
  case fcnv rd r1 c =>
    simp only [InstructionSet.castDstOk] at hok
    simp [InstructionSet.toInstruction, InstructionSet.tryFromInstruction,
      InstructionSet.tryFromInstruction?, E_opcode_toU32, E_fromU32_toU32_zero,
      FloatCastType_tryFromNibble_toNibble c hok, Register.fromNibble_toNibble]
  case lw rd rs rn shamt off =>
    simp only [InstructionSet.WF] at hwf
    simp [InstructionSet.toInstruction, InstructionSet.tryFromInstruction,
      InstructionSet.tryFromInstruction?, E_opcode_toU32,
      E_fromU32_toU32 ⟨off, shamt, rn.toNibble, rs.toNibble, rd.toNibble⟩ 0x11 hwf (by norm_num),
      Register.fromNibble_toNibble]
  case lh rd rs rn shamt off =>
    simp only [InstructionSet.WF] at hwf
    simp [InstructionSet.toInstruction, InstructionSet.tryFromInstruction,
      InstructionSet.tryFromInstruction?, E_opcode_toU32,
      E_fromU32_toU32 ⟨off, shamt, rn.toNibble, rs.toNibble, rd.toNibble⟩ 0x12 hwf (by norm_num),
      Register.fromNibble_toNibble]
  case lhs rd rs rn shamt off =>
    simp only [InstructionSet.WF] at hwf
    simp [InstructionSet.toInstruction, InstructionSet.tryFromInstruction,
      InstructionSet.tryFromInstruction?, E_opcode_toU32,
      E_fromU32_toU32 ⟨off, shamt, rn.toNibble, rs.toNibble, rd.toNibble⟩ 0x13 hwf (by norm_num),
      Register.fromNibble_toNibble]
  case lq rd rs rn shamt off =>
    simp only [InstructionSet.WF] at hwf
    simp [InstructionSet.toInstruction, InstructionSet.tryFromInstruction,
      InstructionSet.tryFromInstruction?, E_opcode_toU32,
      E_fromU32_toU32 ⟨off, shamt, rn.toNibble, rs.toNibble, rd.toNibble⟩ 0x14 hwf (by norm_num),
      Register.fromNibble_toNibble]
  case lqs rd rs rn shamt off =>
    simp only [InstructionSet.WF] at hwf
    simp [InstructionSet.toInstruction, InstructionSet.tryFromInstruction,
      InstructionSet.tryFromInstruction?, E_opcode_toU32,
      E_fromU32_toU32 ⟨off, shamt, rn.toNibble, rs.toNibble, rd.toNibble⟩ 0x15 hwf (by norm_num),
      Register.fromNibble_toNibble]
  case lb rd rs rn shamt off =>
    simp only [InstructionSet.WF] at hwf
    simp [InstructionSet.toInstruction, InstructionSet.tryFromInstruction,
      InstructionSet.tryFromInstruction?, E_opcode_toU32,
      E_fromU32_toU32 ⟨off, shamt, rn.toNibble, rs.toNibble, rd.toNibble⟩ 0x16 hwf (by norm_num),
      Register.fromNibble_toNibble]
  case lbs rd rs rn shamt off =>
    simp only [InstructionSet.WF] at hwf
    simp [InstructionSet.toInstruction, InstructionSet.tryFromInstruction,
      InstructionSet.tryFromInstruction?, E_opcode_toU32,
      E_fromU32_toU32 ⟨off, shamt, rn.toNibble, rs.toNibble, rd.toNibble⟩ 0x17 hwf (by norm_num),
      Register.fromNibble_toNibble]
  case sw rd rs rn shamt off =>
    simp only [InstructionSet.WF] at hwf
    simp [InstructionSet.toInstruction, InstructionSet.tryFromInstruction,
      InstructionSet.tryFromInstruction?, E_opcode_toU32,
      E_fromU32_toU32 ⟨off, shamt, rn.toNibble, rs.toNibble, rd.toNibble⟩ 0x18 hwf (by norm_num),
      Register.fromNibble_toNibble]
  case sh rd rs rn shamt off =>
    simp only [InstructionSet.WF] at hwf
    simp [InstructionSet.toInstruction, InstructionSet.tryFromInstruction,
      InstructionSet.tryFromInstruction?, E_opcode_toU32,
      E_fromU32_toU32 ⟨off, shamt, rn.toNibble, rs.toNibble, rd.toNibble⟩ 0x19 hwf (by norm_num),
      Register.fromNibble_toNibble]
  case sq rd rs rn shamt off =>
    simp only [InstructionSet.WF] at hwf
    simp [InstructionSet.toInstruction, InstructionSet.tryFromInstruction,
      InstructionSet.tryFromInstruction?, E_opcode_toU32,
      E_fromU32_toU32 ⟨off, shamt, rn.toNibble, rs.toNibble, rd.toNibble⟩ 0x1A hwf (by norm_num),
      Register.fromNibble_toNibble]
  case sb rd rs rn shamt off =>
    simp only [InstructionSet.WF] at hwf
    simp [InstructionSet.toInstruction, InstructionSet.tryFromInstruction,
      InstructionSet.tryFromInstruction?, E_opcode_toU32,
      E_fromU32_toU32 ⟨off, shamt, rn.toNibble, rs.toNibble, rd.toNibble⟩ 0x1B hwf (by norm_num),
      Register.fromNibble_toNibble]
  all_goals simp only [InstructionSet.WF] at hwf
  all_goals
    simp [InstructionSet.toInstruction, InstructionSet.tryFromInstruction,
      InstructionSet.tryFromInstruction?,
      M_opcode_toU32, F_opcode_toU32, E_opcode_toU32, R_opcode_toU32,
      M_fromU32_toU32_mk, F_fromU32_toU32_mk, R_fromU32_toU32_mk, E_fromU32_toU32_zero,
      Register.fromNibble_toNibble, LiType_tryFromNibble_toNibble,
      FloatPrecision.tryFromNibble_code] <;> omega

theorem C2_decode_encode_roundtrip_amended_witness :
    InstructionSet.tryFromInstruction
        (InstructionSet.toInstruction (.branch .Bltu 500))
      = some (.branch .Bltu 500) :=
  C2_decode_encode_roundtrip_amended (.branch .Bltu 500) (by norm_num [InstructionSet.WF])
    (by simp [InstructionSet.castDstOk])
